import Mathlib

/-!
Verification development for the codeowners-git tool.

The definitions below are a shallow embedding of the tool:
- the git working repository (branches, current branch, working tree, staging
  area) together with the git primitives wrapped in `src/utils/git.ts`;
- the durable operation state store of `src/utils/state.ts`;
- the single-owner branch operation of `src/commands/branch.ts`;
- the multi-owner orchestrator of `src/commands/multi-branch.ts`;
- the recovery engine of `src/commands/recover.ts`.

External collaborators (the CODEOWNERS resolver, the outcome of external git
push / commit-hook / PR processes, micromatch pattern matching, fresh ids and
clock readings) are passed in through an `Env` record, so every definition is
an executable pure function.
-/

set_option linter.unusedVariables false

namespace CodeownersGit

/-! ## Association lists (finite string-keyed maps)

Storage directories and git trees are modelled as association lists keyed by
strings: `alookup` finds the first entry, `aset` replaces the first entry or
appends, `aremove` drops every entry with the key. -/

def alookup {α : Type} (l : List (String × α)) (k : String) : Option α :=
  match l with
  | [] => none
  | (k', v) :: rest => if k' = k then some v else alookup rest k

def aset {α : Type} (l : List (String × α)) (k : String) (v : α) : List (String × α) :=
  match l with
  | [] => [(k, v)]
  | (k', v') :: rest => if k' = k then (k, v) :: rest else (k', v') :: aset rest k v

def aremove {α : Type} (l : List (String × α)) (k : String) : List (String × α) :=
  l.filter (fun e => e.1 != k)

theorem alookup_aset_self {α : Type} (l : List (String × α)) (k : String) (v : α) :
    alookup (aset l k v) k = some v := by
  induction l with
  | nil => simp [aset, alookup]
  | cons e rest ih =>
    by_cases h : e.1 = k
    · simp [aset, h, alookup]
    · simp [aset, h, alookup, ih]

theorem alookup_aset_ne {α : Type} (l : List (String × α)) (k k' : String) (v : α)
    (h : k' ≠ k) : alookup (aset l k v) k' = alookup l k' := by
  have hk : ¬ k = k' := fun h' => h h'.symm
  induction l with
  | nil => simp [aset, alookup, hk]
  | cons e rest ih =>
    by_cases he : e.1 = k
    · subst he
      simp [aset, alookup, hk]
    · by_cases he' : e.1 = k'
      · simp [aset, he, alookup, he', hk, h]
      · simp [aset, he, alookup, he', ih]

theorem alookup_aremove_self {α : Type} (l : List (String × α)) (k : String) :
    alookup (aremove l k) k = none := by
  induction l with
  | nil => simp [aremove, alookup]
  | cons e rest ih =>
    by_cases h : e.1 = k
    · simpa [aremove, List.filter_cons, h] using ih
    · simp only [aremove, List.filter_cons] at ih ⊢
      simp [h, alookup, ih]

theorem alookup_aremove_ne {α : Type} (l : List (String × α)) (k k' : String)
    (h : k' ≠ k) : alookup (aremove l k) k' = alookup l k' := by
  induction l with
  | nil => simp [aremove]
  | cons e rest ih =>
    simp only [aremove, List.filter_cons] at ih ⊢
    by_cases he : e.1 = k
    · subst he
      have he' : ¬ e.1 = k' := fun h' => h h'.symm
      simp [alookup, he', ih]
    · by_cases he' : e.1 = k'
      · simp [he, alookup, he', ih, h]
      · simp [he, alookup, he', ih]

theorem fst_ne_of_mem_aremove {α : Type} (l : List (String × α)) (k : String) :
    ∀ e ∈ aremove l k, e.1 ≠ k := by
  intro e he
  have := List.of_mem_filter he
  simpa using this

theorem mem_of_alookup_eq_some {α : Type} (l : List (String × α)) (k : String) (v : α)
    (h : alookup l k = some v) : (k, v) ∈ l := by
  induction l with
  | nil => simp [alookup] at h
  | cons e rest ih =>
    by_cases he : e.1 = k
    · simp only [alookup, he, if_true, Option.some.injEq] at h
      cases e with
      | mk k1 v1 =>
        simp only at he h
        subst he
        subst h
        exact List.mem_cons_self _ _
    · simp only [alookup, he, if_false] at h
      exact List.mem_cons_of_mem _ (ih h)

/-! ## Git capability provider (src/utils/git.ts over a model of a git repository)

A commit tree and the working tree are maps from file path to content; the
staging area holds the entries that `git add` has recorded.  The wrappers in
`git.ts` shell out to git; their observable semantics on this state is encoded
here, with externally-determined outcomes (push exit code, commit hooks,
per-path restore failures) drawn from the `Env` record. -/

abbrev Tree := List (String × String)

def Tree.override (t upd : Tree) : Tree :=
  upd.foldl (fun acc e => aset acc e.1 e.2) t

structure GitRepo where
  branches : List (String × Tree)
  current : String
  workTree : Tree
  staged : Tree
deriving Repr, DecidableEq

structure Env where
  getOwner : String → List String
  isMatch : String → List String → Bool := fun _ _ => false
  commitOk : Bool := true
  pushOk : Bool := true
  unstageOk : Bool := true
  restorePathOk : String → Bool := fun _ => true
  prResult : Except String (Option (String × Nat)) := .ok none
  defaultBranch : String := "main"
  newOpId : String := "op"
  now : Nat := 0

def headTree (r : GitRepo) : Tree :=
  (alookup r.branches r.current).getD []

def getCurrentBranch (r : GitRepo) : String :=
  r.current

def branchExists (r : GitRepo) (name : String) : Bool :=
  (alookup r.branches name).isSome

/-- `createBranch` wraps `git checkout -b`: a fresh local branch at the current
head, and a switch to it; the working tree and the index carry over. -/
def createBranch (r : GitRepo) (name : String) : Except String GitRepo :=
  if branchExists r name then .error ("Failed to create branch " ++ name)
  else .ok { r with branches := (name, headTree r) :: r.branches, current := name }

/-- The index after applying the staged entries on top of the current head. -/
def indexTree (r : GitRepo) : Tree :=
  Tree.override (headTree r) r.staged

/-- `git add` of the listed files: each file present in the working tree gets
its working content recorded in the staging area. -/
def stageTree (work : Tree) (files : List String) (st : Tree) : Tree :=
  files.foldl (fun acc f =>
    match alookup work f with
    | some v => aset acc f v
    | none => acc) st

def stageFiles (r : GitRepo) (files : List String) : GitRepo :=
  { r with staged := stageTree r.workTree files r.staged }

/-- `git commit` of the whole index: the current branch now points at the
index contents and the staging area is clean again. -/
def commitStaged (r : GitRepo) : GitRepo :=
  { r with
    branches := aset r.branches r.current (Tree.override (headTree r) r.staged)
    staged := [] }

/-- Working tree after `git checkout <target>`: files whose working copy
matches the current head follow the target branch (and disappear when the
target lacks them); locally modified files are carried over; files that exist
only in the target appear. -/
def checkoutWork (work head target : Tree) : Tree :=
  (work.filterMap (fun fv =>
    if alookup head fv.1 = some fv.2 then
      (alookup target fv.1).map (fun v => (fv.1, v))
    else some fv))
  ++ target.filter (fun fv => (alookup work fv.1).isNone && (alookup head fv.1).isNone)

def checkout (r : GitRepo) (name : String) : Except String GitRepo :=
  match alookup r.branches name with
  | none => .error ("Failed to checkout branch " ++ name)
  | some target =>
    .ok { r with current := name, workTree := checkoutWork r.workTree (headTree r) target }

/-- `deleteBranch` (git.ts): checks existence first, returns `false` instead of
failing when the branch is missing or cannot be deleted (git refuses to delete
the checked-out branch); errors are caught and reported as `false`. -/
def deleteBranch (r : GitRepo) (name : String) : Bool × GitRepo :=
  if branchExists r name then
    if name = r.current then (false, r)
    else (true, { r with branches := aremove r.branches name })
  else (false, r)

/-- The per-file loop of `restoreFilesFromBranch`: `git checkout <branch> -- f`
copies the file from the branch into the working tree and the index; a failing
path (external git error, `env.restorePathOk`) is caught, logged as a warning
and skipped. -/
def restorePaths (env : Env) (r : GitRepo) (branchName : String) (files : List String) : GitRepo :=
  files.foldl (fun acc f =>
    if env.restorePathOk f then
      match alookup acc.branches branchName with
      | some tree =>
        match alookup tree f with
        | some v => { acc with workTree := aset acc.workTree f v, staged := aset acc.staged f v }
        | none => acc
      | none => acc
    else acc) r

/-- `git restore --staged <files>`: the index entries for the files go back to
the head version, i.e. the staged entries for them are dropped. -/
def unstageFiles (r : GitRepo) (files : List String) : GitRepo :=
  { r with staged := r.staged.filter (fun fv => !(files.contains fv.1)) }

/-- `restoreFilesFromBranch` (git.ts): restore every file from the branch, then
unstage them.  Every failure inside (a per-path checkout error, a failing
unstage) is caught and swallowed with a warning, so the function itself never
reports an error: the `.error` case of the result type is never produced. -/
def restoreFilesFromBranch (env : Env) (r : GitRepo) (branchName : String)
    (files : List String) : Except String GitRepo :=
  if files.isEmpty then .ok r
  else
    let r1 := restorePaths env r branchName files
    .ok (if env.unstageOk then unstageFiles r1 files else r1)

/-- `getChangedFiles`: status entries whose working-dir column is not blank,
i.e. files whose working copy differs from the index (modified or untracked),
plus files recorded in the index but missing from the working tree. -/
def getChangedFiles (r : GitRepo) : List String :=
  (r.workTree.filter (fun fv => !(alookup (indexTree r) fv.1 == some fv.2))).map (fun fv => fv.1)
  ++ ((indexTree r).filter (fun fv => (alookup r.workTree fv.1).isNone)).map (fun fv => fv.1)

/-- `getStagedFiles`: status entries whose index column is not blank, i.e.
staged entries that differ from the head version. -/
def getStagedFilesModel (r : GitRepo) : List String :=
  (r.staged.filter (fun fv => !(alookup (headTree r) fv.1 == some fv.2))).map (fun fv => fv.1)

def hasStagedChanges (r : GitRepo) : Bool :=
  !(getStagedFilesModel r).isEmpty

/-! ## Ownership resolver (src/utils/codeowners.ts) -/

/-- `getOwnerFiles`: the changed files whose owner list contains `owner`,
folding in unowned files when `includeUnowned` is set. -/
def getOwnerFiles (resolve : String → List String) (r : GitRepo) (owner : String)
    (includeUnowned : Bool) : List String :=
  (getChangedFiles r).filter (fun file =>
    let owners := resolve file
    if includeUnowned && owners.isEmpty then true else owners.contains owner)

/-! ## Operation state store (src/utils/state.ts)

One durable JSON record per operation id, in a per-project directory; the
directory is modelled as an association list keyed by the operation id.  Fresh
ids (`randomUUID`) and timestamps (`Date.now`) come from the `Env`. -/

inductive OperationState where
  | initializing
  | creatingBranch
  | committing
  | pushing
  | creatingPr
  | complete
  | failed
deriving Repr, DecidableEq

structure BranchState where
  name : String
  owner : String
  created : Bool
  committed : Bool
  pushed : Bool
  prCreated : Bool
  files : List String
  error : Option String := none
deriving Repr, DecidableEq

structure OperationOptions where
  verify : Option Bool := none
  push : Option Bool := none
  remote : Option String := none
  force : Option Bool := none
  keepBranchOnFailure : Option Bool := none
  pr : Option Bool := none
  draftPr : Option Bool := none
deriving Repr, DecidableEq

structure OperationStateData where
  id : String
  timestamp : Nat
  operation : String
  originalBranch : String
  currentState : OperationState
  branches : List BranchState
  options : OperationOptions
deriving Repr, DecidableEq

abbrev Storage := List (String × OperationStateData)

def saveOperationState (store : Storage) (s : OperationStateData) : Storage :=
  aset store s.id s

def loadOperationState (store : Storage) (operationId : String) : Option OperationStateData :=
  alookup store operationId

def deleteOperationState (store : Storage) (operationId : String) : Storage :=
  aremove store operationId

def createOperationState (store : Storage) (newId : String) (now : Nat)
    (operation originalBranch : String) (options : OperationOptions) :
    OperationStateData × Storage :=
  let s : OperationStateData :=
    { id := newId, timestamp := now, operation := operation,
      originalBranch := originalBranch, currentState := .initializing,
      branches := [], options := options }
  (s, saveOperationState store s)

/-- Insertion step of the newest-first sort used by `listOperationStates`. -/
def insertByTimestamp (s : OperationStateData) : List OperationStateData → List OperationStateData
  | [] => [s]
  | t :: rest => if t.timestamp ≤ s.timestamp then s :: t :: rest else t :: insertByTimestamp s rest

def sortByTimestampDesc (l : List OperationStateData) : List OperationStateData :=
  l.foldr insertByTimestamp []

/-- `listOperationStates`: every record of the state directory, sorted by
timestamp, newest first. -/
def listOperationStates (store : Storage) : List OperationStateData :=
  sortByTimestampDesc (store.map (fun e => e.2))

/-- The partial update object accepted by `updateOperationState`
(`Partial` record: absent fields stay untouched). -/
structure OperationUpdate where
  operation : Option String := none
  originalBranch : Option String := none
  currentState : Option OperationState := none
  branches : Option (List BranchState) := none
  options : Option OperationOptions := none

def applyOperationUpdate (s : OperationStateData) (u : OperationUpdate) : OperationStateData :=
  { s with
    operation := u.operation.getD s.operation
    originalBranch := u.originalBranch.getD s.originalBranch
    currentState := u.currentState.getD s.currentState
    branches := u.branches.getD s.branches
    options := u.options.getD s.options }

/-- `updateOperationState`: loads the record, fails loudly when it is missing,
merges the update and writes the result back. -/
def updateOperationState (store : Storage) (operationId : String) (u : OperationUpdate) :
    Except String Storage :=
  match loadOperationState store operationId with
  | none => .error ("Operation state " ++ operationId ++ " not found")
  | some s => .ok (saveOperationState store (applyOperationUpdate s u))

/-- The partial update object accepted by `updateBranchState`. -/
structure BranchUpdate where
  name : Option String := none
  owner : Option String := none
  created : Option Bool := none
  committed : Option Bool := none
  pushed : Option Bool := none
  prCreated : Option Bool := none
  files : Option (List String) := none
  error : Option String := none

/-- `Object.assign(existingBranch, updates)`: present fields overwrite. -/
def mergeBranchState (b : BranchState) (u : BranchUpdate) : BranchState :=
  { name := u.name.getD b.name
    owner := u.owner.getD b.owner
    created := u.created.getD b.created
    committed := u.committed.getD b.committed
    pushed := u.pushed.getD b.pushed
    prCreated := u.prCreated.getD b.prCreated
    files := u.files.getD b.files
    error := match u.error with | some e => some e | none => b.error }

/-- The fresh entry pushed when no branch with the name exists yet: absent
boolean fields default to `false`, the absent file list to `[]`. -/
def newBranchState (branchName : String) (u : BranchUpdate) : BranchState :=
  { name := branchName
    owner := u.owner.getD ""
    created := u.created.getD false
    committed := u.committed.getD false
    pushed := u.pushed.getD false
    prCreated := u.prCreated.getD false
    files := u.files.getD []
    error := u.error }

/-- The find-and-merge-or-push upsert over the branch list of a record. -/
def upsertBranchList (branchName : String) (u : BranchUpdate) :
    List BranchState → List BranchState
  | [] => [newBranchState branchName u]
  | b :: rest =>
    if b.name = branchName then mergeBranchState b u :: rest
    else b :: upsertBranchList branchName u rest

/-- `updateBranchState`: loads the record, fails loudly when missing, upserts
the branch entry matched by name, and writes the record back. -/
def updateBranchState (store : Storage) (operationId branchName : String) (u : BranchUpdate) :
    Except String Storage :=
  match loadOperationState store operationId with
  | none => .error ("Operation state " ++ operationId ++ " not found")
  | some s => .ok (saveOperationState store { s with branches := upsertBranchList branchName u s.branches })

/-- `completeOperation`: set the stage to `complete`, then delete the record
when `deleteState` is requested. -/
def completeOperation (store : Storage) (operationId : String) (deleteState : Bool) :
    Except String Storage :=
  match updateOperationState store operationId { currentState := some .complete } with
  | .error e => .error e
  | .ok st => .ok (if deleteState then deleteOperationState st operationId else st)

def setLastBranchError (e : String) : List BranchState → List BranchState
  | [] => []
  | [b] => [{ b with error := some e }]
  | b :: rest => b :: setLastBranchError e rest

/-- `failOperation`: best-effort — a missing record is ignored; the stage is
set to `failed` and the message is attached to the most recently touched
branch entry when there is one. -/
def failOperation (store : Storage) (operationId : String) (error : Option String) : Storage :=
  match loadOperationState store operationId with
  | none => store
  | some s =>
    let branches' :=
      match error with
      | some e => if s.branches.isEmpty then s.branches else setLastBranchError e s.branches
      | none => s.branches
    saveOperationState store { s with currentState := .failed, branches := branches' }

def getIncompleteOperations (store : Storage) : List OperationStateData :=
  (listOperationStates store).filter (fun s => !(s.currentState == OperationState.complete))

/-! ## Single-owner branch operation (src/commands/branch.ts)

The command is a try/catch/finally over the git capability provider and the
state store.  It is split here exactly along the source blocks: `branchSetup`
is the validation prefix up to the branch-exists check, `branchTry...` is the
inner try block stage by stage, `branchCleanup` is the inner catch block, and
`branch` assembles outer catch and finally.  Called with an `operationState`
(a sub-operation of the orchestrator) it returns failures as a structured
result; standalone it exits the process on failure. -/

structure BranchOptions where
  owner : Option String := none
  branch : Option String := none
  message : Option String := none
  verify : Bool := true
  push : Bool := false
  remote : Option String := none
  upstream : Option String := none
  force : Bool := false
  keepBranchOnFailure : Bool := false
  isDefaultOwner : Bool := false
  append : Bool := false
  pr : Bool := false
  draftPr : Bool := false
  operationState : Option OperationStateData := none
deriving Repr, DecidableEq

structure BranchResult where
  success : Bool
  branchName : String
  owner : String
  files : List String
  pushed : Bool
  prUrl : Option String := none
  prNumber : Option Nat := none
  error : Option String := none
deriving Repr, DecidableEq

inductive BranchExit where
  | result (r : BranchResult)
  | exit (code : Nat)
deriving Repr, DecidableEq

structure BranchOut where
  output : BranchExit
  repo : GitRepo
  store : Storage
deriving Repr, DecidableEq

/-- State of the mutable locals of `branch` at the moment the inner try block
either returned or threw. -/
structure TryOut where
  thrown : Option String
  newBranchCreated : Bool
  commitSucceeded : Bool
  pushed : Bool
  prUrl : Option String
  prNumber : Option Nat
  repo : GitRepo
  store : Storage
deriving Repr, DecidableEq

/-- The state updates guarded by `if (operationState)` in the source. -/
def maybeUpdateOp (opId : Option String) (store : Storage) (u : OperationUpdate) :
    Except String Storage :=
  match opId with
  | none => .ok store
  | some operationId => updateOperationState store operationId u

def maybeUpdateBranch (opId : Option String) (store : Storage) (branchName : String)
    (u : BranchUpdate) : Except String Storage :=
  match opId with
  | none => .ok store
  | some operationId => updateBranchState store operationId branchName u

/-- Success tail of the inner try block: checkout of the original branch, then
`completeOperation` for a standalone run. -/
def branchTryFinish (isSub : Bool) (originalBranch : String) (opId : Option String)
    (newBranchCreated pushed : Bool) (prUrl : Option String) (prNumber : Option Nat)
    (repo : GitRepo) (store : Storage) : TryOut :=
  match checkout repo originalBranch with
  | .error e => ⟨some e, newBranchCreated, true, pushed, prUrl, prNumber, repo, store⟩
  | .ok repo1 =>
    if isSub then ⟨none, newBranchCreated, true, pushed, prUrl, prNumber, repo1, store⟩
    else
      match opId with
      | none => ⟨none, newBranchCreated, true, pushed, prUrl, prNumber, repo1, store⟩
      | some operationId =>
        match completeOperation store operationId true with
        | .error e => ⟨some e, newBranchCreated, true, pushed, prUrl, prNumber, repo1, store⟩
        | .ok store1 => ⟨none, newBranchCreated, true, pushed, prUrl, prNumber, repo1, store1⟩

/-- The `creating-pr` stage.  The whole stage sits in its own try/catch: a
failure is recorded as a non-fatal `error` annotation on the branch entry and
execution continues into the success tail. -/
def branchTryPr (env : Env) (opts : BranchOptions) (isSub : Bool) (originalBranch : String)
    (opId : Option String) (newBranchCreated pushed : Bool) (branchName : String)
    (repo : GitRepo) (store : Storage) : TryOut :=
  if (opts.pr || opts.draftPr) && opts.push then
    let prCatch := fun (e : String) (st : Storage) =>
      match maybeUpdateBranch opId st branchName { error := some ("PR creation failed: " ++ e) } with
      | .error e2 => (⟨some e2, newBranchCreated, true, pushed, none, none, repo, st⟩ : TryOut)
      | .ok st2 => branchTryFinish isSub originalBranch opId newBranchCreated pushed none none repo st2
    match maybeUpdateOp opId store { currentState := some .creatingPr } with
    | .error e => prCatch e store
    | .ok store1 =>
      match env.prResult with
      | .error e => prCatch e store1
      | .ok none => branchTryFinish isSub originalBranch opId newBranchCreated pushed none none repo store1
      | .ok (some (url, num)) =>
        match maybeUpdateBranch opId store1 branchName { prCreated := some true } with
        | .error e => prCatch e store1
        | .ok store2 =>
          branchTryFinish isSub originalBranch opId newBranchCreated pushed (some url) (some num) repo store2
  else branchTryFinish isSub originalBranch opId newBranchCreated pushed none none repo store

/-- The `pushing` stage (only when `push` was requested). -/
def branchTryPush (env : Env) (opts : BranchOptions) (isSub : Bool) (originalBranch : String)
    (opId : Option String) (newBranchCreated : Bool) (branchName : String)
    (repo : GitRepo) (store : Storage) : TryOut :=
  if opts.push then
    match maybeUpdateOp opId store { currentState := some .pushing } with
    | .error e => ⟨some e, newBranchCreated, true, false, none, none, repo, store⟩
    | .ok store1 =>
      if env.pushOk then
        match maybeUpdateBranch opId store1 branchName { pushed := some true } with
        | .error e => ⟨some e, newBranchCreated, true, true, none, none, repo, store1⟩
        | .ok store2 =>
          branchTryPr env opts isSub originalBranch opId newBranchCreated true branchName repo store2
      else ⟨some "Push failed with exit code 1", newBranchCreated, true, false, none, none, repo, store1⟩
  else branchTryPr env opts isSub originalBranch opId newBranchCreated false branchName repo store

/-- The `committing` stage: `git add` of exactly the owner files, then the
commit; the external hook outcome is `env.commitOk`. -/
def branchTryCommit (env : Env) (opts : BranchOptions) (isSub : Bool) (originalBranch : String)
    (opId : Option String) (files : List String) (newBranchCreated : Bool) (branchName : String)
    (repo : GitRepo) (store : Storage) : TryOut :=
  match maybeUpdateOp opId store { currentState := some .committing } with
  | .error e => ⟨some e, newBranchCreated, false, false, none, none, repo, store⟩
  | .ok store1 =>
    let repoAdd := stageFiles repo files
    if env.commitOk then
      let repo1 := commitStaged repoAdd
      match maybeUpdateBranch opId store1 branchName { committed := some true } with
      | .error e => ⟨some e, newBranchCreated, true, false, none, none, repo1, store1⟩
      | .ok store2 =>
        branchTryPush env opts isSub originalBranch opId newBranchCreated branchName repo1 store2
    else ⟨some "Commit failed", newBranchCreated, false, false, none, none, repoAdd, store1⟩

/-- The inner try block: stage bookkeeping, branch creation or checkout of the
existing branch in append mode, then commit, push, PR stages. -/
def branchTry (env : Env) (opts : BranchOptions) (isSub : Bool) (originalBranch : String)
    (opId : Option String) (files : List String) (alreadyExists : Bool)
    (branchName owner : String) (repo : GitRepo) (store : Storage) : TryOut :=
  match maybeUpdateOp opId store { currentState := some .creatingBranch } with
  | .error e => ⟨some e, false, false, false, none, none, repo, store⟩
  | .ok store1 =>
    match maybeUpdateBranch opId store1 branchName
        { name := some branchName, owner := some owner, files := some files,
          created := some false, committed := some false, pushed := some false,
          prCreated := some false } with
    | .error e => ⟨some e, false, false, false, none, none, repo, store1⟩
    | .ok store2 =>
      if alreadyExists && opts.append then
        match checkout repo branchName with
        | .error e => ⟨some e, false, false, false, none, none, repo, store2⟩
        | .ok repo1 =>
          branchTryCommit env opts isSub originalBranch opId files false branchName repo1 store2
      else
        match createBranch repo branchName with
        | .error e => ⟨some e, false, false, false, none, none, repo, store2⟩
        | .ok repo1 =>
          match maybeUpdateBranch opId store2 branchName { created := some true } with
          | .error e => ⟨some e, true, false, false, none, none, repo1, store2⟩
          | .ok store3 =>
            branchTryCommit env opts isSub originalBranch opId files true branchName repo1 store3

/-- Outcome of the validation prefix of `branch` (everything before the inner
try block). -/
inductive SetupOut where
  | fail (msg : String) (originalBranch : String) (files : List String)
  | noFiles (originalBranch : String) (r : BranchResult)
  | proceed (originalBranch : String) (opId : Option String) (files : List String)
      (alreadyExists : Bool) (branchName owner message : String)
deriving Repr, DecidableEq

/-- The validation prefix of `branch`: required options, PR flag validation,
staged-changes precondition, operation-state creation for a standalone run,
owner file resolution with the early no-files return, and the
branch-already-exists check. -/
def branchSetup (env : Env) (opts : BranchOptions) (repo : GitRepo) (store : Storage) :
    SetupOut × Storage :=
  match opts.branch, opts.message, opts.owner with
  | some branchName, some message, some owner =>
    if (opts.pr || opts.draftPr) && !opts.push then
      (.fail "Pull request creation requires --push option" "" [], store)
    else if opts.pr && opts.draftPr then
      (.fail "Cannot use both --pr and --draft-pr options" "" [], store)
    else if hasStagedChanges repo then
      (.fail "Staged changes detected. Please unstage all changes before running this command." "" [], store)
    else
      let originalBranch := getCurrentBranch repo
      let idAndStore : Option String × Storage :=
        match opts.operationState with
        | some opSt => (some opSt.id, store)
        | none =>
          let created := createOperationState store env.newOpId env.now "branch" originalBranch
            { verify := some opts.verify, push := some opts.push, remote := opts.remote,
              force := some opts.force, keepBranchOnFailure := some opts.keepBranchOnFailure,
              pr := some opts.pr, draftPr := some opts.draftPr }
          (some created.1.id, created.2)
      let files := getOwnerFiles env.getOwner repo owner opts.isDefaultOwner
      if files.isEmpty then
        (.noFiles originalBranch
          { success := false, branchName := branchName, owner := owner, files := [],
            pushed := false, error := some "No files found for this owner" }, idAndStore.2)
      else
        let alreadyExists := branchExists repo branchName
        if alreadyExists && !opts.append then
          (.fail ("Branch " ++ branchName ++ " already exists. Use --append to add commits to it, or use a different name.")
            originalBranch files, idAndStore.2)
        else
          (.proceed originalBranch idAndStore.1 files alreadyExists branchName owner message, idAndStore.2)
  | _, _, _ => (.fail "Missing required options for branch creation" "" [], store)

/-- The inner catch block of `branch`: return to the original branch; when a
commit already succeeded, restore the committed files from the branch before
deleting it (and deliberately keep the branch when that restoration reports an
error — a dead guard, since `restoreFilesFromBranch` never does); skip the
deletion entirely under `keepBranchOnFailure`.  Every error inside this block
is caught and swallowed. -/
def branchCleanup (env : Env) (branchName originalBranch : String) (files : List String)
    (commitSucceeded keepBranchOnFailure : Bool) (repo : GitRepo) : GitRepo :=
  match checkout repo originalBranch with
  | .error _ => repo
  | .ok repo1 =>
    if commitSucceeded then
      match restoreFilesFromBranch env repo1 branchName files with
      | .error _ => repo1
      | .ok repo2 =>
        if !keepBranchOnFailure then (deleteBranch repo2 branchName).2 else repo2
    else
      if !keepBranchOnFailure then (deleteBranch repo1 branchName).2 else repo1

/-- The finally block of `branch`: switch back to the original branch when it
is known and not current; a failure here is caught and swallowed. -/
def finallyStep (originalBranch : String) (repo : GitRepo) : GitRepo :=
  if originalBranch = "" then repo
  else if getCurrentBranch repo = originalBranch then repo
  else
    match checkout repo originalBranch with
    | .ok r => r
    | .error _ => repo

/-- The single-owner branch operation. -/
def branch (env : Env) (opts : BranchOptions) (repo : GitRepo) (store : Storage) : BranchOut :=
  let isSub := opts.operationState.isSome
  match branchSetup env opts repo store with
  | (.fail msg originalBranch files, store1) =>
    if isSub then
      { output := .result
          { success := false, branchName := opts.branch.getD "", owner := opts.owner.getD "",
            files := files, pushed := false, error := some msg },
        repo := finallyStep originalBranch repo, store := store1 }
    else { output := .exit 1, repo := repo, store := store1 }
  | (.noFiles originalBranch r, store1) =>
    { output := .result r, repo := finallyStep originalBranch repo, store := store1 }
  | (.proceed originalBranch opId files alreadyExists branchName owner message, store1) =>
    let t := branchTry env opts isSub originalBranch opId files alreadyExists branchName owner repo store1
    match t.thrown with
    | none =>
      { output := .result
          { success := true, branchName := branchName, owner := owner, files := files,
            pushed := t.pushed, prUrl := t.prUrl, prNumber := t.prNumber },
        repo := finallyStep originalBranch t.repo, store := t.store }
    | some msg =>
      let store2 :=
        if isSub then t.store
        else
          match opId with
          | some operationId => failOperation t.store operationId (some msg)
          | none => t.store
      let repo2 :=
        if t.newBranchCreated then
          branchCleanup env branchName originalBranch files t.commitSucceeded
            opts.keepBranchOnFailure t.repo
        else t.repo
      if isSub then
        { output := .result
            { success := false, branchName := branchName, owner := owner, files := files,
              pushed := t.pushed, prUrl := t.prUrl, prNumber := t.prNumber, error := some msg },
          repo := finallyStep originalBranch repo2, store := store2 }
      else { output := .exit 1, repo := repo2, store := store2 }

/-! ## Multi-owner orchestrator (src/commands/multi-branch.ts) -/

structure MultiBranchOptions where
  branch : Option String := none
  message : Option String := none
  verify : Bool := true
  push : Bool := false
  remote : Option String := none
  upstream : Option String := none
  force : Bool := false
  keepBranchOnFailure : Bool := false
  defaultOwner : Option String := none
  ignorePatterns : Option String := none
  includePatterns : Option String := none
  append : Bool := false
  pr : Bool := false
  draftPr : Bool := false
deriving Repr, DecidableEq

/-- The owner-name sanitization of the per-owner loop: every character outside
the class a-z, A-Z, 0-9, dash, underscore, at-sign becomes a dash, then one
leading at-sign is stripped. -/
def sanitizeChar (c : Char) : Char :=
  if ('a' ≤ c ∧ c ≤ 'z') ∨ ('A' ≤ c ∧ c ≤ 'Z') ∨ ('0' ≤ c ∧ c ≤ '9') ∨ c = '-' ∨ c = '_' ∨ c = '@'
  then c else '-'

def sanitizeOwner (owner : String) : String :=
  let replaced := String.mk (owner.data.map sanitizeChar)
  match replaced.data with
  | '@' :: rest => String.mk rest
  | _ => replaced

/-- `ownerSet.add(owner)` on an insertion-ordered set kept as a list. -/
def addOwner (s : List String) (o : String) : List String :=
  if s.contains o then s else s ++ [o]

def collectStep (resolve : String → List String) (acc : List String × List String)
    (file : String) : List String × List String :=
  let owners := resolve file
  if owners.isEmpty then (acc.1, acc.2 ++ [file])
  else (owners.foldl addOwner acc.1, acc.2)

/-- The owner-collection loop: a JS `Set` keeps insertion order and drops
duplicates; files resolving to zero owners are collected separately. -/
def collectOwners (resolve : String → List String) (files : List String) :
    List String × List String :=
  files.foldl (collectStep resolve) ([], [])

/-- The ignore / include filtering, mutually exclusive, with comma-separated
trimmed micromatch patterns (the matcher itself is external, `env.isMatch`). -/
def applyFilters (env : Env) (opts : MultiBranchOptions) (codeowners : List String) :
    List String :=
  match opts.ignorePatterns with
  | some ig =>
    let pats := (ig.splitOn ",").map (fun p => p.trim)
    codeowners.filter (fun o => !(env.isMatch o pats))
  | none =>
    match opts.includePatterns with
    | some inc =>
      let pats := (inc.splitOn ",").map (fun p => p.trim)
      codeowners.filter (fun o => env.isMatch o pats)
    | none => codeowners

/-- The owner universe as built by the orchestrator before filtering: the
insertion-ordered set of owners resolved from the changed files, with the
default owner appended — unconditionally, even when already present — when
some changed file resolved to zero owners and a default owner is set. -/
def ownerUniverse (env : Env) (opts : MultiBranchOptions) (repo : GitRepo) : List String :=
  let collected := collectOwners env.getOwner (getChangedFiles repo)
  if !collected.2.isEmpty then
    match opts.defaultOwner with
    | some d => collected.1 ++ [d]
    | none => collected.1
  else collected.1

/-- One per-owner invocation as passed to the single-owner branch operation. -/
structure OwnerCall where
  owner : String
  branchName : String
  message : String
deriving Repr, DecidableEq

structure MultiResults where
  success : List String
  failure : List String
  prSuccess : List String
  prFailure : List String
deriving Repr, DecidableEq

structure LoopOut where
  halt : Option Nat
  results : MultiResults
  calls : List OwnerCall
  branchResults : List BranchResult
  repo : GitRepo
  store : Storage
deriving Repr, DecidableEq

/-- The per-owner loop.  Each owner gets a derived branch name and commit
message and a sub-operation invocation of `branch` carrying the shared
operation record.  The source pushes the owner onto the success list without
inspecting the returned structured result; the catch that pushes onto the
failure list only fires when the invocation throws — which a sub-operation
`branch` never does (it returns its failures), so the failure list is only
ever extended by that dead catch.  The returned results are collected here as
`branchResults` for observation (the source discards them). -/
def multiLoop (env : Env) (opts : MultiBranchOptions) (opState : OperationStateData)
    (base msg : String) : List String → GitRepo → Storage → LoopOut
  | [], repo, store => ⟨none, ⟨[], [], [], []⟩, [], [], repo, store⟩
  | owner :: rest, repo, store =>
    let sanitizedOwner := sanitizeOwner owner
    let branchName := base ++ "/" ++ sanitizedOwner
    let commitMessage := msg ++ " - " ++ owner
    let call : OwnerCall := ⟨owner, branchName, commitMessage⟩
    let bOut := branch env
      { owner := some owner, branch := some branchName, message := some commitMessage,
        verify := opts.verify, push := opts.push, remote := opts.remote,
        upstream := opts.upstream, force := opts.force,
        keepBranchOnFailure := opts.keepBranchOnFailure,
        isDefaultOwner := opts.defaultOwner = some owner, append := opts.append,
        pr := opts.pr, draftPr := opts.draftPr, operationState := some opState }
      repo store
    match bOut.output with
    | .exit c => ⟨some c, ⟨[], [], [], []⟩, [call], [], bOut.repo, bOut.store⟩
    | .result r =>
      let restOut := multiLoop env opts opState base msg rest bOut.repo bOut.store
      { restOut with
        results :=
          { restOut.results with
            success := owner :: restOut.results.success
            prSuccess :=
              if (opts.pr || opts.draftPr) && opts.push then owner :: restOut.results.prSuccess
              else restOut.results.prSuccess }
        calls := call :: restOut.calls
        branchResults := r :: restOut.branchResults }

structure MultiOut where
  exitCode : Option Nat
  results : MultiResults
  calls : List OwnerCall
  branchResults : List BranchResult
  codeowners : List String
  repo : GitRepo
  store : Storage
deriving Repr, DecidableEq

def emptyResults : MultiResults := ⟨[], [], [], []⟩

/-- The multi-owner orchestrator. -/
def multiBranch (env : Env) (opts : MultiBranchOptions) (repo : GitRepo) (store : Storage) :
    MultiOut :=
  match opts.branch, opts.message with
  | some base, some msg =>
    if opts.ignorePatterns.isSome && opts.includePatterns.isSome then
      ⟨some 1, emptyResults, [], [], [], repo, store⟩
    else if (opts.pr || opts.draftPr) && !opts.push then
      ⟨some 1, emptyResults, [], [], [], repo, store⟩
    else if opts.pr && opts.draftPr then
      ⟨some 1, emptyResults, [], [], [], repo, store⟩
    else if hasStagedChanges repo then
      ⟨some 1, emptyResults, [], [], [], repo, store⟩
    else
      let originalBranch := getCurrentBranch repo
      let created := createOperationState store env.newOpId env.now "multi-branch" originalBranch
        { verify := some opts.verify, push := some opts.push, remote := opts.remote,
          force := some opts.force, keepBranchOnFailure := some opts.keepBranchOnFailure,
          pr := some opts.pr, draftPr := some opts.draftPr }
      let opState := created.1
      let store1 := created.2
      let changedFiles := getChangedFiles repo
      if changedFiles.isEmpty then
        ⟨some 1, emptyResults, [], [], [],
          repo, failOperation store1 opState.id (some "No changed files found in the repository")⟩
      else
        let codeowners0 := ownerUniverse env opts repo
        if codeowners0.isEmpty then
          ⟨none, emptyResults, [], [], [], repo, store1⟩
        else
          let codeowners1 := applyFilters env opts codeowners0
          if (opts.ignorePatterns.isSome || opts.includePatterns.isSome) && codeowners1.isEmpty then
            ⟨none, emptyResults, [], [], codeowners1, repo, store1⟩
          else
            let loopOut := multiLoop env opts opState base msg codeowners1 repo store1
            match loopOut.halt with
            | some c =>
              ⟨some c, loopOut.results, loopOut.calls, loopOut.branchResults, codeowners1,
                loopOut.repo, loopOut.store⟩
            | none =>
              match completeOperation loopOut.store opState.id true with
              | .ok store2 =>
                ⟨none, loopOut.results, loopOut.calls, loopOut.branchResults, codeowners1,
                  loopOut.repo, store2⟩
              | .error e =>
                ⟨some 1, loopOut.results, loopOut.calls, loopOut.branchResults, codeowners1,
                  loopOut.repo, failOperation loopOut.store opState.id (some e)⟩
  | _, _ => ⟨some 1, emptyResults, [], [], [], repo, store⟩

/-! ## Recovery engine (src/commands/recover.ts) -/

structure RecoverOptions where
  id : Option String := none
  keepBranches : Bool := false
  list : Bool := false
  auto : Bool := false
deriving Repr, DecidableEq

/-- Step 2 of `performRecovery`: for every branch entry marked created, delete
the branch when it still exists; a branch already absent is logged as already
deleted and a failing deletion is caught — neither stops the loop. -/
def recoveryDeleteBranches (branches : List BranchState) (repo : GitRepo) : GitRepo :=
  branches.foldl (fun acc b => if b.created then (deleteBranch acc b.name).2 else acc) repo

/-- `performRecovery`: return to the original branch (fatal when that checkout
fails), clean up created branches unless `keepBranches`, then delete the
operation record from storage. -/
def performRecovery (state : OperationStateData) (keepBranches : Bool) (repo : GitRepo)
    (store : Storage) : Except String (GitRepo × Storage) :=
  let step1 : Except String GitRepo :=
    if getCurrentBranch repo = state.originalBranch then .ok repo
    else checkout repo state.originalBranch
  match step1 with
  | .error e => .error e
  | .ok repo1 =>
    let repo2 :=
      if !keepBranches && !state.branches.isEmpty then recoveryDeleteBranches state.branches repo1
      else repo1
    .ok (repo2, deleteOperationState store state.id)

inductive RecoverSelection where
  | listed
  | nothingToRecover
  | idNotFoundExit
  | chosen (op : OperationStateData) (confirmNeeded : Bool)
  | promptUser (choiceIds : List String)
deriving Repr, DecidableEq

/-- The operation-selection policy of `recover`: list mode first; nothing to
recover when no incomplete record exists; an explicit id is loaded (exit when
missing); a single incomplete record is used directly; with several, `auto`
picks the first of the newest-first list, otherwise the user is prompted.
Confirmation is asked unless `auto`. -/
def selectOperation (opts : RecoverOptions) (store : Storage) : RecoverSelection :=
  let incompleteOps := getIncompleteOperations store
  if opts.list then .listed
  else if incompleteOps.isEmpty then .nothingToRecover
  else
    match opts.id with
    | some operationId =>
      match loadOperationState store operationId with
      | none => .idNotFoundExit
      | some op => .chosen op (!opts.auto)
    | none =>
      match incompleteOps with
      | [] => .nothingToRecover
      | op :: restOps =>
        if restOps.isEmpty then .chosen op (!opts.auto)
        else if opts.auto then .chosen op false
        else .promptUser ((op :: restOps).map (fun o => o.id))

/-! ## Lemmas about the state store -/

theorem loadOperationState_save (store : Storage) (s : OperationStateData)
    (operationId : String) (h : s.id = operationId) :
    loadOperationState (saveOperationState store s) operationId = some s := by
  subst h
  exact alookup_aset_self store s.id s

theorem updateOperationState_ok (store : Storage) (operationId : String) (u : OperationUpdate)
    (rec : OperationStateData) (hload : loadOperationState store operationId = some rec) :
    updateOperationState store operationId u =
      .ok (saveOperationState store (applyOperationUpdate rec u)) := by
  unfold updateOperationState
  rw [hload]

theorem updateBranchState_ok (store : Storage) (operationId branchName : String)
    (u : BranchUpdate) (rec : OperationStateData)
    (hload : loadOperationState store operationId = some rec) :
    updateBranchState store operationId branchName u =
      .ok (saveOperationState store { rec with branches := upsertBranchList branchName u rec.branches }) := by
  unfold updateBranchState
  rw [hload]

theorem upsertBranchList_no_match (branchName : String) (u : BranchUpdate)
    (bs : List BranchState) (h : ∀ b ∈ bs, b.name ≠ branchName) :
    upsertBranchList branchName u bs = bs ++ [newBranchState branchName u] := by
  induction bs with
  | nil => rfl
  | cons b rest ih =>
    have hb : ¬ b.name = branchName := h b (List.mem_cons_self _ _)
    simp only [upsertBranchList, hb, if_false, List.cons_append, List.cons.injEq, true_and]
    exact ih (fun x hx => h x (List.mem_cons_of_mem _ hx))

theorem upsertBranchList_match_split (branchName : String) (u : BranchUpdate)
    (bs1 bs2 : List BranchState) (b : BranchState)
    (h1 : ∀ x ∈ bs1, x.name ≠ branchName) (hb : b.name = branchName) :
    upsertBranchList branchName u (bs1 ++ b :: bs2) = bs1 ++ mergeBranchState b u :: bs2 := by
  induction bs1 with
  | nil => simp [upsertBranchList, hb]
  | cons x rest ih =>
    have hx : ¬ x.name = branchName := h1 x (List.mem_cons_self _ _)
    simp only [List.cons_append, upsertBranchList, hx, if_false, List.cons.injEq, true_and]
    exact ih (fun y hy => h1 y (List.mem_cons_of_mem _ hy))

theorem upsertBranchList_length_of_match (branchName : String) (u : BranchUpdate)
    (bs : List BranchState) (h : ∃ b ∈ bs, b.name = branchName) :
    (upsertBranchList branchName u bs).length = bs.length := by
  induction bs with
  | nil => simp at h
  | cons b rest ih =>
    by_cases hb : b.name = branchName
    · simp [upsertBranchList, hb]
    · obtain ⟨x, hx, hxn⟩ := h
      rcases List.mem_cons.mp hx with hxe | hxr
      · subst hxe; exact absurd hxn hb
      · simp only [upsertBranchList, hb, if_false, List.length_cons]
        rw [ih ⟨x, hxr, hxn⟩]

theorem name_mem_upsertBranchList (branchName : String) (u : BranchUpdate)
    (bs : List BranchState) (hn : u.name = none ∨ u.name = some branchName) :
    ∀ x ∈ upsertBranchList branchName u bs,
      x.name = branchName ∨ x.name ∈ bs.map (fun b => b.name) := by
  induction bs with
  | nil =>
    intro x hx
    simp only [upsertBranchList, List.mem_singleton] at hx
    subst hx
    left; rfl
  | cons b rest ih =>
    intro x hx
    by_cases hb : b.name = branchName
    · simp only [upsertBranchList, hb, if_true, List.mem_cons] at hx
      rcases hx with hx | hx
      · subst hx
        left
        rcases hn with hn | hn <;> simp [mergeBranchState, hn, hb]
      · right
        simp only [List.map_cons, List.mem_cons]
        right
        exact List.mem_map_of_mem _ hx
    · simp only [upsertBranchList, hb, if_false, List.mem_cons] at hx
      rcases hx with hx | hx
      · subst hx
        right
        simp [List.map_cons]
      · rcases ih x hx with h | h
        · left; exact h
        · right; simp only [List.map_cons, List.mem_cons]; right; exact h

theorem upsertBranchList_names_nodup (branchName : String) (u : BranchUpdate)
    (bs : List BranchState) (hn : u.name = none ∨ u.name = some branchName)
    (h : (bs.map (fun b => b.name)).Nodup) :
    ((upsertBranchList branchName u bs).map (fun b => b.name)).Nodup := by
  induction bs with
  | nil => simp [upsertBranchList]
  | cons b rest ih =>
    simp only [List.map_cons, List.nodup_cons] at h
    by_cases hb : b.name = branchName
    · have hmerge : (mergeBranchState b u).name = b.name := by
        rcases hn with hn | hn <;> simp [mergeBranchState, hn, hb]
      simp only [upsertBranchList, hb, if_true, List.map_cons, List.nodup_cons, hmerge]
      exact ⟨hb ▸ h.1, h.2⟩
    · simp only [upsertBranchList, hb, if_false, List.map_cons, List.nodup_cons]
      refine ⟨?_, ih h.2⟩
      intro hmem
      obtain ⟨x, hx, hxn⟩ := List.mem_map.mp hmem
      rcases name_mem_upsertBranchList branchName u rest hn x hx with hx1 | hx1
      · exact hb (hxn.symm.trans hx1)
      · exact h.1 (hxn ▸ hx1)

/-! ## Lemmas about the newest-first sort -/

theorem mem_insertByTimestamp (s a : OperationStateData) (l : List OperationStateData) :
    a ∈ insertByTimestamp s l ↔ a = s ∨ a ∈ l := by
  induction l with
  | nil => simp [insertByTimestamp]
  | cons t rest ih =>
    simp only [insertByTimestamp]
    split
    · simp [List.mem_cons]
    · simp only [List.mem_cons, ih]
      tauto

theorem mem_sortByTimestampDesc (a : OperationStateData) (l : List OperationStateData) :
    a ∈ sortByTimestampDesc l ↔ a ∈ l := by
  induction l with
  | nil => simp [sortByTimestampDesc]
  | cons t rest ih =>
    simp only [sortByTimestampDesc, List.foldr_cons] at ih ⊢
    rw [mem_insertByTimestamp]
    simp [ih]

theorem pairwise_insertByTimestamp (s : OperationStateData) (l : List OperationStateData)
    (h : List.Pairwise (fun a b => b.timestamp ≤ a.timestamp) l) :
    List.Pairwise (fun a b => b.timestamp ≤ a.timestamp) (insertByTimestamp s l) := by
  induction l with
  | nil => simp [insertByTimestamp]
  | cons t rest ih =>
    rw [List.pairwise_cons] at h
    simp only [insertByTimestamp]
    split
    · rename_i hts
      rw [List.pairwise_cons]
      constructor
      · intro b hb
        rcases List.mem_cons.mp hb with hb | hb
        · subst hb; exact hts
        · exact le_trans (h.1 b hb) hts
      · rw [List.pairwise_cons]
        exact h
    · rename_i hts
      rw [List.pairwise_cons]
      constructor
      · intro b hb
        rcases (mem_insertByTimestamp s b rest).mp hb with hb | hb
        · subst hb; exact Nat.le_of_not_le hts
        · exact h.1 b hb
      · exact ih h.2

theorem pairwise_sortByTimestampDesc (l : List OperationStateData) :
    List.Pairwise (fun a b => b.timestamp ≤ a.timestamp) (sortByTimestampDesc l) := by
  induction l with
  | nil => simp [sortByTimestampDesc]
  | cons t rest ih =>
    simp only [sortByTimestampDesc, List.foldr_cons] at ih ⊢
    exact pairwise_insertByTimestamp t _ ih

theorem pairwise_listOperationStates (store : Storage) :
    List.Pairwise (fun a b => b.timestamp ≤ a.timestamp) (listOperationStates store) :=
  pairwise_sortByTimestampDesc _

theorem pairwise_getIncompleteOperations (store : Storage) :
    List.Pairwise (fun a b => b.timestamp ≤ a.timestamp) (getIncompleteOperations store) :=
  (pairwise_listOperationStates store).sublist (List.filter_sublist _)

/-! ## Lemmas about branch deletion and recovery -/

theorem deleteBranch_current (repo : GitRepo) (name : String) :
    ((deleteBranch repo name).2).current = repo.current := by
  unfold deleteBranch
  by_cases hex : branchExists repo name
  · by_cases hc : name = repo.current
    · rw [if_pos hex, if_pos hc]
    · rw [if_pos hex, if_neg hc]
  · rw [if_neg hex]

theorem branchExists_deleteBranch_self (repo : GitRepo) (name : String)
    (h : name ≠ repo.current) : branchExists (deleteBranch repo name).2 name = false := by
  unfold deleteBranch
  by_cases hex : branchExists repo name
  · rw [if_pos hex, if_neg h]
    show (alookup (aremove repo.branches name) name).isSome = false
    rw [alookup_aremove_self]
    rfl
  · rw [if_neg hex]
    simpa using hex

theorem branchExists_deleteBranch_of_not_exists (repo : GitRepo) (name m : String)
    (h : branchExists repo name = false) :
    branchExists (deleteBranch repo m).2 name = false := by
  unfold deleteBranch
  by_cases hex : branchExists repo m
  · by_cases hc : m = repo.current
    · rw [if_pos hex, if_pos hc]
      exact h
    · rw [if_pos hex, if_neg hc]
      by_cases hnm : name = m
      · subst hnm
        rw [h] at hex
        exact absurd hex (by simp)
      · show (alookup (aremove repo.branches m) name).isSome = false
        rw [alookup_aremove_ne repo.branches m name hnm]
        exact h
  · rw [if_neg hex]
    exact h

theorem recoveryDeleteBranches_current (bs : List BranchState) (repo : GitRepo) :
    (recoveryDeleteBranches bs repo).current = repo.current := by
  induction bs generalizing repo with
  | nil => rfl
  | cons b rest ih =>
    simp only [recoveryDeleteBranches, List.foldl_cons] at ih ⊢
    by_cases hb : b.created
    · rw [if_pos hb, ih, deleteBranch_current]
    · rw [if_neg hb]
      exact ih repo

theorem recoveryDeleteBranches_not_exists (bs : List BranchState) (repo : GitRepo) (n : String)
    (h : branchExists repo n = false) :
    branchExists (recoveryDeleteBranches bs repo) n = false := by
  induction bs generalizing repo with
  | nil => exact h
  | cons b rest ih =>
    simp only [recoveryDeleteBranches, List.foldl_cons] at ih ⊢
    by_cases hb : b.created
    · rw [if_pos hb]
      exact ih _ (branchExists_deleteBranch_of_not_exists repo n b.name h)
    · rw [if_neg hb]
      exact ih repo h

theorem recoveryDeleteBranches_deletes (bs : List BranchState) (repo : GitRepo) (orig : String)
    (hcur : repo.current = orig)
    (hn : ∀ b ∈ bs, b.created = true → b.name ≠ orig) :
    ∀ b ∈ bs, b.created = true →
      branchExists (recoveryDeleteBranches bs repo) b.name = false := by
  induction bs generalizing repo with
  | nil => simp
  | cons b0 rest ih =>
    intro b hb hbc
    simp only [recoveryDeleteBranches, List.foldl_cons] at ih ⊢
    rcases List.mem_cons.mp hb with hbe | hbr
    · subst hbe
      rw [if_pos hbc]
      have hne : b.name ≠ repo.current := by
        rw [hcur]
        exact hn b (List.mem_cons_self _ _) hbc
      have hdel := branchExists_deleteBranch_self repo b.name hne
      have := recoveryDeleteBranches_not_exists rest ((deleteBranch repo b.name).2) b.name hdel
      simpa [recoveryDeleteBranches] using this
    · by_cases h0 : b0.created
      · rw [if_pos h0]
        refine ih _ ?_ (fun x hx hxc => hn x (List.mem_cons_of_mem _ hx) hxc) b hbr hbc
        rw [deleteBranch_current, hcur]
      · rw [if_neg h0]
        exact ih repo hcur (fun x hx hxc => hn x (List.mem_cons_of_mem _ hx) hxc) b hbr hbc

/-! ## Lemmas about the owner universe -/

theorem addOwner_fold_nodup (owners : List String) (acc : List String) (h : acc.Nodup) :
    (owners.foldl addOwner acc).Nodup := by
  induction owners generalizing acc with
  | nil => exact h
  | cons o rest ih =>
    simp only [List.foldl_cons]
    by_cases hc : acc.contains o
    · have hstep : addOwner acc o = acc := by
        unfold addOwner
        rw [if_pos hc]
      rw [hstep]
      exact ih acc h
    · have hno : o ∉ acc := by
        intro hmem
        exact hc (List.elem_eq_true_of_mem hmem)
      have hstep : addOwner acc o = acc ++ [o] := by
        unfold addOwner
        rw [if_neg hc]
      have hnodup : (acc ++ [o]).Nodup := by
        simp [List.nodup_append, h, hno]
      rw [hstep]
      exact ih _ hnodup

theorem collectOwners_go_nodup (resolve : String → List String) (files : List String)
    (acc : List String × List String) (h : acc.1.Nodup) :
    (files.foldl (collectStep resolve) acc).1.Nodup := by
  induction files generalizing acc with
  | nil => exact h
  | cons f rest ih =>
    simp only [List.foldl_cons]
    by_cases hf : (resolve f).isEmpty
    · have hstep : collectStep resolve acc f = (acc.1, acc.2 ++ [f]) := by
        simp [collectStep, hf]
      rw [hstep]
      exact ih _ h
    · have hstep : collectStep resolve acc f = ((resolve f).foldl addOwner acc.1, acc.2) := by
        simp [collectStep, hf]
      rw [hstep]
      exact ih _ (addOwner_fold_nodup (resolve f) acc.1 h)

theorem collectOwners_nodup (resolve : String → List String) (files : List String) :
    (collectOwners resolve files).1.Nodup :=
  collectOwners_go_nodup resolve files ([], []) (by simp)

/-! ## Lemmas about the branch command and the per-owner loop -/

theorem finallyStep_of_current (o : String) (r : GitRepo) (h : getCurrentBranch r = o) :
    finallyStep o r = r := by
  unfold finallyStep
  by_cases ho : o = ""
  · simp [ho]
  · simp [ho, h]

theorem multiLoop_calls_shape (env : Env) (opts : MultiBranchOptions)
    (opState : OperationStateData) (base msg : String) (owners : List String)
    (repo : GitRepo) (store : Storage) :
    ∀ c ∈ (multiLoop env opts opState base msg owners repo store).calls,
      c.branchName = base ++ "/" ++ sanitizeOwner c.owner ∧
      c.message = msg ++ " - " ++ c.owner := by
  induction owners generalizing repo store with
  | nil => simp [multiLoop]
  | cons owner rest ih =>
    intro c hc
    simp only [multiLoop] at hc
    split at hc
    · simp only [List.mem_singleton] at hc
      subst hc
      exact ⟨rfl, rfl⟩
    · simp only [List.mem_cons] at hc
      rcases hc with hc | hc
      · subst hc
        exact ⟨rfl, rfl⟩
      · exact ih _ _ c hc

/-! ## Concrete scenarios used by counterexamples, code-bug evaluations and witnesses -/

/-- A resolver owning `f1` by `@a` and nothing else. -/
def resolveSingleA : String → List String := fun f => if f = "f1" then ["@a"] else []

/-- One branch `main`, one tracked file `f1` modified in the working tree. -/
def repoOneFile : GitRepo :=
  { branches := [("main", [("f1", "old")])], current := "main",
    workTree := [("f1", "new")], staged := [] }

def envPushFail : Env :=
  { getOwner := resolveSingleA, pushOk := false, newOpId := "op1", now := 5 }

def optsMultiPush : MultiBranchOptions :=
  { branch := some "feature", message := some "m", push := true }

/-- A resolver owning `a.txt` by `@t` and nothing else. -/
def resolveTxt : String → List String := fun f => if f = "a.txt" then ["@t"] else []

/-- One branch `main`, one tracked file `a.txt` modified in the working tree. -/
def repoTxt : GitRepo :=
  { branches := [("main", [("a.txt", "old")])], current := "main",
    workTree := [("a.txt", "new")], staged := [] }

def envPushFailRestoreOk : Env :=
  { getOwner := resolveTxt, pushOk := false, newOpId := "op2", now := 7 }

/-- Same scenario but the per-path `git checkout <branch> -- <file>` of the
file restoration fails (e.g. an index lock or I/O error). -/
def envPushFailRestoreBad : Env :=
  { getOwner := resolveTxt, pushOk := false, restorePathOk := fun _ => false,
    newOpId := "op2", now := 7 }

def optsBranchPush : BranchOptions :=
  { owner := some "@t", branch := some "nb", message := some "m", push := true }

def envPlain : Env := { getOwner := resolveTxt, newOpId := "op3", now := 9 }

def optsAppendMissing : BranchOptions :=
  { owner := some "@t", branch := some "nb", message := some "m", append := true }

/-- Two changed files: `f1` owned by `@a`, `f2` unowned. -/
def repoTwoFiles : GitRepo :=
  { branches := [("main", [("f1", "old"), ("f2", "x")])], current := "main",
    workTree := [("f1", "new"), ("f2", "y")], staged := [] }

def envTwoFiles : Env := { getOwner := resolveSingleA, newOpId := "op4", now := 3 }

/-- The default owner `@a` is also resolved from `f1`. -/
def optsDefaultDup : MultiBranchOptions :=
  { branch := some "feature", message := some "m", defaultOwner := some "@a" }

/-! ## C1 — the orchestrator records owners without reading the structured result -/

/-- C1 (code bug evaluation): on a single-owner change set whose push fails,
the sub-operation returns a structured result with `success = false` and a
true error (not the benign no-files one), yet the orchestrator records the
owner in the success list and the failure list stays empty: the per-owner
catch never fires because a sub-operation `branch` returns its failures
instead of throwing. -/
theorem multiBranch_failed_result_lands_in_success_list :
    (multiBranch envPushFail optsMultiPush repoOneFile []).results.success = ["@a"] ∧
    (multiBranch envPushFail optsMultiPush repoOneFile []).results.failure = [] ∧
    (multiBranch envPushFail optsMultiPush repoOneFile []).branchResults =
      [{ success := false, branchName := "feature/a", owner := "@a", files := ["f1"],
         pushed := false, prUrl := none, prNumber := none,
         error := some "Push failed with exit code 1" }] :=
  ⟨rfl, rfl, rfl⟩

/-! ## C2 — failure-then-restore invariant and the dead no-delete guard -/

/-- C2 (code bug evaluation): commit succeeds, push fails,
`keepBranchOnFailure` is false.  When every per-file restoration succeeds the
cleanup does leave the repository as the claim states: the created branch
`nb` is gone, the committed file is back in the working tree with its
committed content and unstaged, and the current branch is the original one.
But when the per-file restoration fails, the failure is swallowed inside
`restoreFilesFromBranch`, so the no-delete guard of the cleanup never
triggers: the branch is deleted anyway and the committed content is lost
from the working tree. -/
theorem restore_failure_still_deletes_branch :
    (branchExists (branch envPushFailRestoreOk optsBranchPush repoTxt []).repo "nb" = false ∧
     alookup (branch envPushFailRestoreOk optsBranchPush repoTxt []).repo.workTree "a.txt" = some "new" ∧
     alookup (branch envPushFailRestoreOk optsBranchPush repoTxt []).repo.staged "a.txt" = none ∧
     (branch envPushFailRestoreOk optsBranchPush repoTxt []).repo.current = "main") ∧
    (branchExists (branch envPushFailRestoreBad optsBranchPush repoTxt []).repo "nb" = false ∧
     alookup (branch envPushFailRestoreBad optsBranchPush repoTxt []).repo.workTree "a.txt" = some "old" ∧
     (branch envPushFailRestoreBad optsBranchPush repoTxt []).repo.current = "main") :=
  ⟨⟨rfl, rfl, rfl, rfl⟩, ⟨rfl, rfl, rfl⟩⟩

/-! ## C3 — append on a non-existent branch -/

/-- C3 (code bug evaluation): with `append` set and no branch `nb` in the
repository, the operation does not fail with a does-not-exist condition: it
silently takes the branch-creation path, creates `nb`, commits the owner file
to it and reports success. -/
theorem append_missing_branch_creates_instead_of_failing :
    (branch envPlain optsAppendMissing repoTxt []).output = .result
      { success := true, branchName := "nb", owner := "@t", files := ["a.txt"],
        pushed := false, prUrl := none, prNumber := none, error := none } ∧
    branchExists (branch envPlain optsAppendMissing repoTxt []).repo "nb" = true ∧
    alookup (branch envPlain optsAppendMissing repoTxt []).repo.branches "nb" =
      some [("a.txt", "new")] :=
  ⟨rfl, rfl, rfl⟩

/-! ## C4 — the owner universe and the duplicated default owner -/

/-- C4 (counterexample): when the configured default owner `@a` is also
resolved from a changed file and another changed file is unowned, the owner
universe contains `@a` twice and the loop processes it twice — refuting the
claim that each owner appears at most once. -/
theorem multiBranch_default_owner_processed_twice :
    (multiBranch envTwoFiles optsDefaultDup repoTwoFiles []).codeowners = ["@a", "@a"] ∧
    ((multiBranch envTwoFiles optsDefaultDup repoTwoFiles []).calls.map (fun c => c.owner)) =
      ["@a", "@a"] :=
  ⟨rfl, rfl⟩

/-! ## C7 — the benign no-files result -/

/-- C7: whenever the validations pass but the owner resolves to an empty file
set (unowned files folded in when `isDefaultOwner`), the single-owner branch
operation performs no git mutation at all — the repository state is returned
untouched, so no branch is created and nothing is committed — and the result
is `success = false` with an empty file list, `pushed = false` and the
specific error string distinguishing the benign case from true failures. -/
theorem branch_noFiles_noop (env : Env) (opts : BranchOptions) (repo : GitRepo)
    (store : Storage) (ow bn m : String)
    (hown : opts.owner = some ow) (hbr : opts.branch = some bn) (hmsg : opts.message = some m)
    (hpr1 : ((opts.pr || opts.draftPr) && !opts.push) = false)
    (hpr2 : (opts.pr && opts.draftPr) = false)
    (hstaged : hasStagedChanges repo = false)
    (hfiles : getOwnerFiles env.getOwner repo ow opts.isDefaultOwner = []) :
    (branch env opts repo store).output = .result
      { success := false, branchName := bn, owner := ow, files := [], pushed := false,
        prUrl := none, prNumber := none, error := some "No files found for this owner" } ∧
    (branch env opts repo store).repo = repo := by
  have hsetup :
      branchSetup env opts repo store =
        (SetupOut.noFiles (getCurrentBranch repo)
          { success := false, branchName := bn, owner := ow, files := [], pushed := false,
            prUrl := none, prNumber := none, error := some "No files found for this owner" },
         (match opts.operationState with
          | some opSt => (some opSt.id, store)
          | none =>
            let created := createOperationState store env.newOpId env.now "branch"
              (getCurrentBranch repo)
              { verify := some opts.verify, push := some opts.push, remote := opts.remote,
                force := some opts.force, keepBranchOnFailure := some opts.keepBranchOnFailure,
                pr := some opts.pr, draftPr := some opts.draftPr }
            (some created.1.id, created.2)).2) := by
    unfold branchSetup
    rw [hown, hbr, hmsg]
    dsimp only
    rw [if_neg (by rw [hpr1]; exact Bool.false_ne_true),
      if_neg (by rw [hpr2]; exact Bool.false_ne_true),
      if_neg (by rw [hstaged]; exact Bool.false_ne_true)]
    rw [hfiles]
    rfl
  constructor
  · unfold branch
    rw [hsetup]
  · unfold branch
    rw [hsetup]
    show finallyStep (getCurrentBranch repo) repo = repo
    exact finallyStep_of_current _ _ rfl

/-- Witness for C7 at a concrete input: the owner `@nobody` owns none of the
changed files. -/
theorem branch_noFiles_noop_witness :
    (branch envPlain { owner := some "@nobody", branch := some "b2", message := some "x" }
        repoTxt []).output = .result
      { success := false, branchName := "b2", owner := "@nobody", files := [], pushed := false,
        prUrl := none, prNumber := none, error := some "No files found for this owner" } ∧
    (branch envPlain { owner := some "@nobody", branch := some "b2", message := some "x" }
        repoTxt []).repo = repoTxt :=
  branch_noFiles_noop envPlain _ repoTxt [] "@nobody" "b2" "x" rfl rfl rfl rfl rfl rfl rfl

/-! ## C9 — derived branch names and commit messages -/

/-- C9: every per-owner invocation issued by the orchestrator uses the branch
name `base ++ "/" ++ sanitizeOwner owner` — where `sanitizeOwner` maps every
character outside `[A-Za-z0-9-_@]` to a dash and strips one leading `@` — and
the commit message `baseMessage ++ " - " ++ owner` with the unsanitized owner
identifier. -/
theorem multiBranch_branch_naming (env : Env) (opts : MultiBranchOptions) (repo : GitRepo)
    (store : Storage) (base msg : String)
    (hb : opts.branch = some base) (hm : opts.message = some msg) :
    ∀ c ∈ (multiBranch env opts repo store).calls,
      c.branchName = base ++ "/" ++ sanitizeOwner c.owner ∧
      c.message = msg ++ " - " ++ c.owner := by
  intro c hc
  unfold multiBranch at hc
  rw [hb, hm] at hc
  dsimp only at hc
  repeat' split at hc
  all_goals
    first
      | exact absurd hc (List.not_mem_nil c)
      | exact multiLoop_calls_shape _ _ _ _ _ _ _ _ c hc

def resolveDotOwner : String → List String :=
  fun f => if f = "f1" then ["@org/team.x"] else []

def envSanitize : Env := { getOwner := resolveDotOwner, newOpId := "op5", now := 2 }

def optsMultiPlain : MultiBranchOptions := { branch := some "feature", message := some "m" }

/-- Witness for C9 at a concrete input with characters needing sanitization. -/
theorem multiBranch_branch_naming_witness :
    (multiBranch envSanitize optsMultiPlain repoOneFile []).calls =
      [⟨"@org/team.x", "feature/org-team-x", "m - @org/team.x"⟩] ∧
    (∀ c ∈ (multiBranch envSanitize optsMultiPlain repoOneFile []).calls,
      c.branchName = "feature" ++ "/" ++ sanitizeOwner c.owner ∧
      c.message = "m" ++ " - " ++ c.owner) :=
  ⟨rfl, multiBranch_branch_naming envSanitize optsMultiPlain repoOneFile [] "feature" "m" rfl rfl⟩

/-! ## C10 — the branch-record upsert -/

/-- C10: `updateBranchState` keeps at most one branch entry per name: when an
entry with the given name exists, the given fields are merged into it in
place (and the entry count is unchanged — so two owners whose derived branch
names coincide share one entry); otherwise a new entry is appended whose
unspecified boolean flags default to false and whose unspecified file list
defaults to empty; name-uniqueness of the entry list is preserved. -/
theorem updateBranchState_upsert (store : Storage) (operationId branchName : String)
    (u : BranchUpdate) (rec : OperationStateData)
    (hload : loadOperationState store operationId = some rec)
    (hid : rec.id = operationId)
    (hn : u.name = none ∨ u.name = some branchName) :
    ∃ store2, updateBranchState store operationId branchName u = .ok store2 ∧
      ∃ rec2, loadOperationState store2 operationId = some rec2 ∧
        ((rec.branches.map (fun b => b.name)).Nodup →
          (rec2.branches.map (fun b => b.name)).Nodup) ∧
        ((∀ b ∈ rec.branches, b.name ≠ branchName) →
          rec2.branches = rec.branches ++
            [{ name := branchName, owner := u.owner.getD "", created := u.created.getD false,
               committed := u.committed.getD false, pushed := u.pushed.getD false,
               prCreated := u.prCreated.getD false, files := u.files.getD [],
               error := u.error }]) ∧
        (∀ bs1 b bs2, rec.branches = bs1 ++ b :: bs2 → (∀ x ∈ bs1, x.name ≠ branchName) →
          b.name = branchName → rec2.branches = bs1 ++ mergeBranchState b u :: bs2) ∧
        ((∃ b ∈ rec.branches, b.name = branchName) →
          rec2.branches.length = rec.branches.length) := by
  refine ⟨saveOperationState store { rec with branches := upsertBranchList branchName u rec.branches },
    updateBranchState_ok store operationId branchName u rec hload,
    { rec with branches := upsertBranchList branchName u rec.branches },
    loadOperationState_save _ _ _ hid, ?_, ?_, ?_, ?_⟩
  · exact fun h => upsertBranchList_names_nodup branchName u rec.branches hn h
  · intro h
    exact upsertBranchList_no_match branchName u rec.branches h
  · intro bs1 b bs2 hsplit h1 hbn
    show upsertBranchList branchName u rec.branches = bs1 ++ mergeBranchState b u :: bs2
    rw [hsplit]
    exact upsertBranchList_match_split branchName u bs1 bs2 b h1 hbn
  · intro h
    exact upsertBranchList_length_of_match branchName u rec.branches h

def recWitness : OperationStateData :=
  { id := "w", timestamp := 1, operation := "multi-branch", originalBranch := "main",
    currentState := .initializing, branches := [], options := {} }

/-- Witness for C10 at a concrete input: an upsert into an empty branch list
appends a defaulted entry. -/
theorem updateBranchState_upsert_witness :
    (recWitness.id = "w" ∧ loadOperationState [("w", recWitness)] "w" = some recWitness) ∧
    (∃ store2, updateBranchState [("w", recWitness)] "w" "b" { created := some true } = .ok store2 ∧
      ∃ rec2, loadOperationState store2 "w" = some rec2 ∧
        rec2.branches = [{ name := "b", owner := "", created := true, committed := false,
                           pushed := false, prCreated := false, files := [], error := none }]) :=
  ⟨⟨rfl, rfl⟩, by
    obtain ⟨store2, h1, rec2, h2, h3, h4, h5, h6⟩ :=
      updateBranchState_upsert [("w", recWitness)] "w" "b" { created := some true } recWitness
        rfl rfl (Or.inl rfl)
    refine ⟨store2, h1, rec2, h2, ?_⟩
    rw [h4 (by simp [recWitness])]
    rfl⟩

/-! ## C5 — the state-store round trip -/

/-- The create-then-update scenario driver of the round-trip claim: a
sequence of stage advances applied through `updateOperationState`. -/
def applyStageUpdates (operationId : String) (stages : List OperationState) (store : Storage) :
    Except String Storage :=
  stages.foldlM
    (fun st stage => updateOperationState st operationId { currentState := some stage }) store

theorem getLastD_cons_eq {α : Type} (a d : α) (l : List α) :
    (a :: l).getLastD d = l.getLastD a := by
  cases l <;> simp [List.getLastD]

theorem applyStageUpdates_ok (operationId : String) (stages : List OperationState)
    (store : Storage) (rec : OperationStateData)
    (hload : loadOperationState store operationId = some rec)
    (hid : rec.id = operationId) :
    ∃ store2, applyStageUpdates operationId stages store = .ok store2 ∧
      loadOperationState store2 operationId =
        some { rec with currentState := stages.getLastD rec.currentState } := by
  induction stages generalizing store rec with
  | nil =>
    refine ⟨store, rfl, ?_⟩
    simpa using hload
  | cons s rest ih =>
    have h1 : updateOperationState store operationId { currentState := some s } =
        .ok (saveOperationState store { rec with currentState := s }) := by
      rw [updateOperationState_ok store operationId _ rec hload]
      rfl
    have hload1 : loadOperationState (saveOperationState store { rec with currentState := s })
        operationId = some { rec with currentState := s } :=
      loadOperationState_save _ _ _ hid
    obtain ⟨store2, hfold, hl⟩ := ih _ _ hload1 hid
    refine ⟨store2, ?_, ?_⟩
    · unfold applyStageUpdates at hfold ⊢
      rw [List.foldlM_cons, h1]
      exact hfold
    · rw [getLastD_cons_eq]
      exact hl

/-- C5: create → any number of stage updates → `complete(deleteOnSuccess)`
leaves zero records for the operation id; and after create → updates with no
completion (a crash), the listing still returns the record with its
last-written stage intact, in a list sorted newest first. -/
theorem operationState_roundTrip (store0 : Storage) (newId : String) (now : Nat)
    (operation originalBranch : String) (options : OperationOptions)
    (stages : List OperationState) :
    ∃ store2,
      applyStageUpdates newId stages
        (createOperationState store0 newId now operation originalBranch options).2 = .ok store2 ∧
      (∃ store3, completeOperation store2 newId true = .ok store3 ∧ ∀ e ∈ store3, e.1 ≠ newId) ∧
      (∃ rec, loadOperationState store2 newId = some rec ∧
        rec.id = newId ∧ rec.timestamp = now ∧ rec.operation = operation ∧
        rec.originalBranch = originalBranch ∧
        rec.currentState = stages.getLastD OperationState.initializing ∧
        rec ∈ listOperationStates store2) ∧
      List.Pairwise (fun a b => b.timestamp ≤ a.timestamp) (listOperationStates store2) := by
  have hload0 : loadOperationState
      (createOperationState store0 newId now operation originalBranch options).2 newId =
      some (createOperationState store0 newId now operation originalBranch options).1 := by
    unfold createOperationState
    exact loadOperationState_save _ _ _ rfl
  obtain ⟨store2, hfold, hl⟩ := applyStageUpdates_ok newId stages _ _ hload0 rfl
  refine ⟨store2, hfold, ?_, ?_, pairwise_listOperationStates store2⟩
  · obtain ⟨rec2, hl2⟩ : ∃ rec2, loadOperationState store2 newId = some rec2 := ⟨_, hl⟩
    have hcomp := updateOperationState_ok store2 newId
      { currentState := some OperationState.complete } _ hl2
    refine ⟨deleteOperationState (saveOperationState store2 (applyOperationUpdate rec2
        { currentState := some OperationState.complete })) newId, ?_, ?_⟩
    · unfold completeOperation
      rw [hcomp]
      rfl
    · exact fun e he => fst_ne_of_mem_aremove _ newId e he
  · refine ⟨_, hl, rfl, rfl, rfl, rfl, rfl, ?_⟩
    have hmem := mem_of_alookup_eq_some store2 newId _ hl
    have hmem2 := List.mem_map_of_mem (fun e => e.2) hmem
    show _ ∈ sortByTimestampDesc (store2.map (fun e => e.2))
    exact (mem_sortByTimestampDesc _ _).mpr hmem2

/-! ## C6 — recovery cleanup and the selection policy -/

/-- C6: on a recovery run with `keepBranches = false`, every branch entry
marked created whose branch still exists is deleted (already-absent branches
are simply skipped, not errors — the run still succeeds), the repository ends
on the original branch, and the operation record is removed from storage.
And the selection policy with no explicit id: a single incomplete record is
used directly; with several, `auto` picks the head of the newest-first list —
which has the maximal timestamp — and otherwise the user is prompted over all
incomplete records. -/
theorem recovery_behaviour (state : OperationStateData) (repo : GitRepo) (store : Storage)
    (ropts : RecoverOptions)
    (horig : branchExists repo state.originalBranch = true)
    (hnames : ∀ b ∈ state.branches, b.created = true → b.name ≠ state.originalBranch) :
    (∃ repo2 store2, performRecovery state false repo store = .ok (repo2, store2) ∧
      (∀ b ∈ state.branches, b.created = true → branchExists repo2 b.name = false) ∧
      repo2.current = state.originalBranch ∧
      (∀ e ∈ store2, e.1 ≠ state.id)) ∧
    (∀ op, ropts.list = false → ropts.id = none →
      getIncompleteOperations store = [op] →
      selectOperation ropts store = .chosen op (!ropts.auto)) ∧
    (∀ op rest, ropts.list = false → ropts.id = none → ropts.auto = true →
      getIncompleteOperations store = op :: rest → rest ≠ [] →
      selectOperation ropts store = .chosen op false ∧
      ∀ o ∈ getIncompleteOperations store, o.timestamp ≤ op.timestamp) ∧
    (∀ op rest, ropts.list = false → ropts.id = none → ropts.auto = false →
      getIncompleteOperations store = op :: rest → rest ≠ [] →
      selectOperation ropts store = .promptUser ((op :: rest).map (fun o => o.id))) := by
  refine ⟨?_, ?_, ?_, ?_⟩
  · -- the recovery run
    have hstep1 : ∃ repo1,
        (if getCurrentBranch repo = state.originalBranch then Except.ok repo
         else checkout repo state.originalBranch) = .ok repo1 ∧
        repo1.current = state.originalBranch := by
      by_cases hcur : getCurrentBranch repo = state.originalBranch
      · exact ⟨repo, by rw [if_pos hcur], hcur⟩
      · obtain ⟨target, htarget⟩ : ∃ t, alookup repo.branches state.originalBranch = some t := by
          unfold branchExists at horig
          cases halt : alookup repo.branches state.originalBranch with
          | none => rw [halt] at horig; simp at horig
          | some t => exact ⟨t, rfl⟩
        have hco : checkout repo state.originalBranch = .ok
            { repo with
              current := state.originalBranch
              workTree := checkoutWork repo.workTree (headTree repo) target } := by
          unfold checkout
          rw [htarget]
        exact ⟨_, by rw [if_neg hcur]; exact hco, rfl⟩
    obtain ⟨repo1, hs1, hcur1⟩ := hstep1
    have hrun : ∀ repo2,
        (if (!false && !state.branches.isEmpty) = true
         then recoveryDeleteBranches state.branches repo1 else repo1) = repo2 →
        performRecovery state false repo store = .ok (repo2, deleteOperationState store state.id) := by
      intro repo2 h2
      unfold performRecovery
      rw [hs1]
      dsimp only
      rw [h2]
    cases hbl : state.branches with
    | nil =>
      refine ⟨repo1, deleteOperationState store state.id, ?_, ?_, hcur1, ?_⟩
      · refine hrun repo1 ?_
        rw [hbl]
        rfl
      · intro b hb
        exact absurd hb (List.not_mem_nil b)
      · exact fun e he => fst_ne_of_mem_aremove _ state.id e he
    | cons b0 bs =>
      refine ⟨recoveryDeleteBranches (b0 :: bs) repo1,
        deleteOperationState store state.id, ?_, ?_, ?_, ?_⟩
      · refine hrun _ ?_
        rw [hbl]
        rfl
      · exact recoveryDeleteBranches_deletes (b0 :: bs) repo1 state.originalBranch hcur1
          (hbl ▸ hnames)
      · rw [recoveryDeleteBranches_current]
        exact hcur1
      · exact fun e he => fst_ne_of_mem_aremove _ state.id e he
  · -- exactly one incomplete record
    intro op hlist hid hops
    unfold selectOperation
    rw [hops, hid, hlist]
    rfl
  · -- several, auto: the head of the newest-first list
    intro op rest hlist hid hauto hops hne
    cases rest with
    | nil => exact absurd rfl hne
    | cons r rs =>
      constructor
      · unfold selectOperation
        rw [hops, hid, hlist, hauto]
        rfl
      · intro o ho
        rw [hops] at ho
        have hpw := pairwise_getIncompleteOperations store
        rw [hops, List.pairwise_cons] at hpw
        rcases List.mem_cons.mp ho with h | h
        · exact le_of_eq (by rw [h])
        · exact hpw.1 o h
  · -- several, no auto: prompt over all incomplete records
    intro op rest hlist hid hauto hops hne
    cases rest with
    | nil => exact absurd rfl hne
    | cons r rs =>
      unfold selectOperation
      rw [hops, hid, hlist, hauto]
      rfl

/-! ## C8 — a PR failure does not fail the operation -/

theorem branchTry_create_step (env : Env) (opts : BranchOptions) (isSub : Bool)
    (originalBranch oid : String) (files : List String) (bn ow : String)
    (repo repo1 : GitRepo) (store s1 s2 s3 : Storage)
    (h1 : updateOperationState store oid { currentState := some .creatingBranch } = .ok s1)
    (h2 : updateBranchState s1 oid bn
      { name := some bn, owner := some ow, files := some files, created := some false,
        committed := some false, pushed := some false, prCreated := some false } = .ok s2)
    (hcr : createBranch repo bn = .ok repo1)
    (h3 : updateBranchState s2 oid bn { created := some true } = .ok s3) :
    branchTry env opts isSub originalBranch (some oid) files false bn ow repo store =
      branchTryCommit env opts isSub originalBranch (some oid) files true bn repo1 s3 := by
  unfold branchTry
  simp only [maybeUpdateOp, maybeUpdateBranch]
  rw [h1]
  dsimp only
  rw [h2]
  dsimp only
  rw [if_neg (by simp : ¬ ((false && opts.append) = true))]
  rw [hcr]
  dsimp only
  rw [h3]

theorem branchTryCommit_step (env : Env) (opts : BranchOptions) (isSub : Bool)
    (originalBranch oid : String) (files : List String) (bn : String)
    (repo : GitRepo) (store s1 s2 : Storage)
    (h1 : updateOperationState store oid { currentState := some .committing } = .ok s1)
    (hcommit : env.commitOk = true)
    (h2 : updateBranchState s1 oid bn { committed := some true } = .ok s2) :
    branchTryCommit env opts isSub originalBranch (some oid) files true bn repo store =
      branchTryPush env opts isSub originalBranch (some oid) true bn
        (commitStaged (stageFiles repo files)) s2 := by
  unfold branchTryCommit
  simp only [maybeUpdateOp, maybeUpdateBranch]
  rw [h1]
  dsimp only
  rw [if_pos hcommit]
  rw [h2]

theorem branchTryPush_step (env : Env) (opts : BranchOptions) (isSub : Bool)
    (originalBranch oid : String) (bn : String) (repo : GitRepo) (store s1 s2 : Storage)
    (hpush : opts.push = true)
    (h1 : updateOperationState store oid { currentState := some .pushing } = .ok s1)
    (hpushOk : env.pushOk = true)
    (h2 : updateBranchState s1 oid bn { pushed := some true } = .ok s2) :
    branchTryPush env opts isSub originalBranch (some oid) true bn repo store =
      branchTryPr env opts isSub originalBranch (some oid) true true bn repo s2 := by
  unfold branchTryPush
  rw [if_pos hpush]
  simp only [maybeUpdateOp, maybeUpdateBranch]
  rw [h1]
  dsimp only
  rw [if_pos hpushOk]
  rw [h2]

theorem branchTryPr_fail_step (env : Env) (opts : BranchOptions) (isSub : Bool)
    (originalBranch oid : String) (nbc pushed : Bool) (bn prErr : String)
    (repo : GitRepo) (store s1 s2 : Storage)
    (hcond : ((opts.pr || opts.draftPr) && opts.push) = true)
    (h1 : updateOperationState store oid { currentState := some .creatingPr } = .ok s1)
    (hpr : env.prResult = .error prErr)
    (h2 : updateBranchState s1 oid bn
      { error := some ("PR creation failed: " ++ prErr) } = .ok s2) :
    branchTryPr env opts isSub originalBranch (some oid) nbc pushed bn repo store =
      branchTryFinish isSub originalBranch (some oid) nbc pushed none none repo s2 := by
  unfold branchTryPr
  rw [if_pos hcond]
  dsimp only
  simp only [maybeUpdateOp, maybeUpdateBranch]
  rw [h1]
  dsimp only
  rw [hpr]
  dsimp only
  rw [h2]

theorem branchTryFinish_sub_step (originalBranch : String) (opId : Option String)
    (nbc pushed : Bool) (prUrl : Option String) (prNumber : Option Nat)
    (repo repo1 : GitRepo) (store : Storage)
    (hco : checkout repo originalBranch = .ok repo1) :
    branchTryFinish true originalBranch opId nbc pushed prUrl prNumber repo store =
      ⟨none, nbc, true, pushed, prUrl, prNumber, repo1, store⟩ := by
  unfold branchTryFinish
  rw [hco]
  rfl

/-- C8: when commit and push succeed but the requested PR creation fails, the
single-owner branch operation still succeeds: the returned result has
`success = true` with the pushed flag set, the created branch is neither
deleted nor rolled back, the repository ends back on the original branch, and
the stored BranchRecord keeps `committed = true` and `pushed = true` while
the PR failure is recorded only as a non-fatal error annotation on it. -/
theorem pr_failure_nonfatal (env : Env) (opts : BranchOptions) (repo : GitRepo) (store : Storage)
    (ow bn m prErr : String) (opSt rec : OperationStateData) (origTree : Tree)
    (hown : opts.owner = some ow) (hbr : opts.branch = some bn) (hmsg : opts.message = some m)
    (hsub : opts.operationState = some opSt)
    (hpush : opts.push = true) (hpr : opts.pr = true) (hdraft : opts.draftPr = false)
    (hstaged : hasStagedChanges repo = false)
    (hfiles : (getOwnerFiles env.getOwner repo ow opts.isDefaultOwner).isEmpty = false)
    (hnotex : branchExists repo bn = false)
    (hcur : alookup repo.branches repo.current = some origTree)
    (hload : loadOperationState store opSt.id = some rec)
    (hrecid : rec.id = opSt.id)
    (hnob : ∀ b ∈ rec.branches, b.name ≠ bn)
    (hcommit : env.commitOk = true) (hpushOk : env.pushOk = true)
    (hprFail : env.prResult = .error prErr) :
    (branch env opts repo store).output = .result
      { success := true, branchName := bn, owner := ow,
        files := getOwnerFiles env.getOwner repo ow opts.isDefaultOwner, pushed := true,
        prUrl := none, prNumber := none, error := none } ∧
    branchExists (branch env opts repo store).repo bn = true ∧
    (branch env opts repo store).repo.current = repo.current ∧
    ∃ rec2, loadOperationState (branch env opts repo store).store opSt.id = some rec2 ∧
      rec2.branches = rec.branches ++
        [{ name := bn, owner := ow, created := true, committed := true, pushed := true,
           prCreated := false, files := getOwnerFiles env.getOwner repo ow opts.isDefaultOwner,
           error := some ("PR creation failed: " ++ prErr) }] := by
  set F := getOwnerFiles env.getOwner repo ow opts.isDefaultOwner with hF
  have halk : alookup repo.branches bn = none := by
    unfold branchExists at hnotex
    cases h : alookup repo.branches bn with
    | none => rfl
    | some t => rw [h] at hnotex; simp at hnotex
  have hbncur : ¬ (bn = repo.current) := by
    intro h
    rw [h, hcur] at halk
    exact Option.noConfusion halk
  have hcurbn : repo.current ≠ bn := fun h => hbncur h.symm
  have hsetup : branchSetup env opts repo store =
      (SetupOut.proceed repo.current (some opSt.id) F false bn ow m, store) := by
    unfold branchSetup
    rw [hown, hbr, hmsg]
    dsimp only
    rw [if_neg (by rw [hpr, hdraft, hpush]; decide),
      if_neg (by rw [hpr, hdraft]; decide),
      if_neg (by rw [hstaged]; exact Bool.false_ne_true)]
    rw [hsub]
    dsimp only
    rw [hF]
    rw [if_neg (by rw [← hF, hfiles]; exact Bool.false_ne_true)]
    rw [hnotex]
    rfl
  -- the stage-by-stage store evolution
  have h1 := updateOperationState_ok store opSt.id
    { currentState := some OperationState.creatingBranch } rec hload
  set r1 := applyOperationUpdate rec { currentState := some OperationState.creatingBranch } with hr1
  set s1 := saveOperationState store r1 with hs1
  have hid1 : r1.id = opSt.id := hrecid
  have hload1 : loadOperationState s1 opSt.id = some r1 :=
    loadOperationState_save store r1 opSt.id hid1
  have h2 := updateBranchState_ok s1 opSt.id bn
    { name := some bn, owner := some ow, files := some F, created := some false,
      committed := some false, pushed := some false, prCreated := some false } r1 hload1
  set r2 := { r1 with branches := upsertBranchList bn ({ name := some bn, owner := some ow, files := some F, created := some false, committed := some false, pushed := some false, prCreated := some false }) r1.branches } with hr2
  set s2 := saveOperationState s1 r2 with hs2
  have hid2 : r2.id = opSt.id := hid1
  have hload2 : loadOperationState s2 opSt.id = some r2 :=
    loadOperationState_save s1 r2 opSt.id hid2
  have h3 := updateBranchState_ok s2 opSt.id bn { created := some true } r2 hload2
  set r3 := { r2 with branches := upsertBranchList bn ({ created := some true }) r2.branches } with hr3
  set s3 := saveOperationState s2 r3 with hs3
  have hid3 : r3.id = opSt.id := hid2
  have hload3 : loadOperationState s3 opSt.id = some r3 :=
    loadOperationState_save s2 r3 opSt.id hid3
  have h4 := updateOperationState_ok s3 opSt.id
    { currentState := some OperationState.committing } r3 hload3
  set r4 := applyOperationUpdate r3 { currentState := some OperationState.committing } with hr4
  set s4 := saveOperationState s3 r4 with hs4
  have hid4 : r4.id = opSt.id := hid3
  have hload4 : loadOperationState s4 opSt.id = some r4 :=
    loadOperationState_save s3 r4 opSt.id hid4
  have h5 := updateBranchState_ok s4 opSt.id bn { committed := some true } r4 hload4
  set r5 := { r4 with branches := upsertBranchList bn ({ committed := some true }) r4.branches } with hr5
  set s5 := saveOperationState s4 r5 with hs5
  have hid5 : r5.id = opSt.id := hid4
  have hload5 : loadOperationState s5 opSt.id = some r5 :=
    loadOperationState_save s4 r5 opSt.id hid5
  have h6 := updateOperationState_ok s5 opSt.id
    { currentState := some OperationState.pushing } r5 hload5
  set r6 := applyOperationUpdate r5 { currentState := some OperationState.pushing } with hr6
  set s6 := saveOperationState s5 r6 with hs6
  have hid6 : r6.id = opSt.id := hid5
  have hload6 : loadOperationState s6 opSt.id = some r6 :=
    loadOperationState_save s5 r6 opSt.id hid6
  have h7 := updateBranchState_ok s6 opSt.id bn { pushed := some true } r6 hload6
  set r7 := { r6 with branches := upsertBranchList bn ({ pushed := some true }) r6.branches } with hr7
  set s7 := saveOperationState s6 r7 with hs7
  have hid7 : r7.id = opSt.id := hid6
  have hload7 : loadOperationState s7 opSt.id = some r7 :=
    loadOperationState_save s6 r7 opSt.id hid7
  have h8 := updateOperationState_ok s7 opSt.id
    { currentState := some OperationState.creatingPr } r7 hload7
  set r8 := applyOperationUpdate r7 { currentState := some OperationState.creatingPr } with hr8
  set s8 := saveOperationState s7 r8 with hs8
  have hid8 : r8.id = opSt.id := hid7
  have hload8 : loadOperationState s8 opSt.id = some r8 :=
    loadOperationState_save s7 r8 opSt.id hid8
  have h9 := updateBranchState_ok s8 opSt.id bn
    { error := some ("PR creation failed: " ++ prErr) } r8 hload8
  set r9 := { r8 with branches := upsertBranchList bn ({ error := some ("PR creation failed: " ++ prErr) }) r8.branches } with hr9
  set s9 := saveOperationState s8 r9 with hs9
  have hid9 : r9.id = opSt.id := hid8
  have hload9 : loadOperationState s9 opSt.id = some r9 :=
    loadOperationState_save s8 r9 opSt.id hid9
  -- the git-side evolution
  set repoB := { repo with branches := (bn, headTree repo) :: repo.branches, current := bn } with hrB
  have hcr : createBranch repo bn = .ok repoB := by
    unfold createBranch
    rw [if_neg (by rw [hnotex]; exact Bool.false_ne_true)]
  set repoC := commitStaged (stageFiles repoB F) with hrC
  have hlookupC : alookup repoC.branches repo.current = some origTree := by
    show alookup (aset ((bn, headTree repo) :: repo.branches) bn
      (Tree.override (headTree (stageFiles repoB F)) (stageFiles repoB F).staged)) repo.current =
      some origTree
    rw [alookup_aset_ne _ bn repo.current _ hcurbn]
    show (if bn = repo.current then some (headTree repo)
      else alookup repo.branches repo.current) = some origTree
    rw [if_neg hbncur]
    exact hcur
  set repoD := { repoC with
    current := repo.current
    workTree := checkoutWork repoC.workTree (headTree repoC) origTree } with hrD
  have hco : checkout repoC repo.current = .ok repoD := by
    unfold checkout
    rw [hlookupC]
  have hcond : ((opts.pr || opts.draftPr) && opts.push) = true := by
    rw [hpr, hdraft, hpush]
    rfl
  have hbt : branchTry env opts true repo.current (some opSt.id) F false bn ow repo store =
      ⟨none, true, true, true, none, none, repoD, s9⟩ := by
    rw [branchTry_create_step env opts true repo.current opSt.id F bn ow repo repoB store s1 s2 s3
        h1 h2 hcr h3,
      branchTryCommit_step env opts true repo.current opSt.id F bn repoB s3 s4 s5 h4 hcommit h5,
      ← hrC,
      branchTryPush_step env opts true repo.current opSt.id bn repoC s5 s6 s7 hpush h6 hpushOk h7,
      branchTryPr_fail_step env opts true repo.current opSt.id true true bn prErr repoC s7 s8 s9
        hcond h8 hprFail h9,
      branchTryFinish_sub_step repo.current (some opSt.id) true true none none repoC repoD s9 hco]
  have hbranch : branch env opts repo store =
      { output := BranchExit.result { success := true, branchName := bn, owner := ow, files := F, pushed := true, prUrl := none, prNumber := none, error := none }
        repo := finallyStep repo.current repoD
        store := s9 } := by
    unfold branch
    rw [hsetup, hsub]
    simp only [Option.isSome_some]
    rw [hbt]
  have hDcur : getCurrentBranch repoD = repo.current := rfl
  refine ⟨?_, ?_, ?_, ?_⟩
  · rw [hbranch]
  · rw [hbranch]
    show branchExists (finallyStep repo.current repoD) bn = true
    rw [finallyStep_of_current repo.current repoD hDcur]
    show (alookup (aset ((bn, headTree repo) :: repo.branches) bn
      (Tree.override (headTree (stageFiles repoB F)) (stageFiles repoB F).staged)) bn).isSome = true
    rw [alookup_aset_self]
    rfl
  · rw [hbranch]
    show (finallyStep repo.current repoD).current = repo.current
    rw [finallyStep_of_current repo.current repoD hDcur]
  · refine ⟨r9, ?_, ?_⟩
    · rw [hbranch]
      exact hload9
    · show upsertBranchList bn { error := some ("PR creation failed: " ++ prErr) }
        (upsertBranchList bn { pushed := some true }
          (upsertBranchList bn { committed := some true }
            (upsertBranchList bn { created := some true }
              (upsertBranchList bn
                { name := some bn, owner := some ow, files := some F, created := some false,
                  committed := some false, pushed := some false, prCreated := some false }
                rec.branches)))) =
        rec.branches ++ [({ name := bn, owner := ow, created := true, committed := true, pushed := true, prCreated := false, files := F, error := some ("PR creation failed: " ++ prErr) } : BranchState)]
      rw [upsertBranchList_no_match bn _ rec.branches hnob,
        upsertBranchList_match_split bn _ rec.branches [] _ hnob rfl,
        upsertBranchList_match_split bn _ rec.branches [] _ hnob rfl,
        upsertBranchList_match_split bn _ rec.branches [] _ hnob rfl,
        upsertBranchList_match_split bn _ rec.branches [] _ hnob rfl]
      rfl

def rec8W : OperationStateData :=
  { id := "o8", timestamp := 2, operation := "multi-branch", originalBranch := "main",
    currentState := .initializing, branches := [], options := {} }

def env8W : Env :=
  { getOwner := resolveTxt, prResult := .error "boom", newOpId := "x", now := 0 }

def opts8W : BranchOptions :=
  { owner := some "@t", branch := some "nb", message := some "m", push := true, pr := true,
    operationState := some rec8W }

/-- Witness for C8 at a concrete input: push succeeds, the PR step fails with
`boom`, the operation still succeeds and the record keeps its flags. -/
theorem pr_failure_nonfatal_witness :
    (hasStagedChanges repoTxt = false ∧ branchExists repoTxt "nb" = false ∧
     loadOperationState [("o8", rec8W)] "o8" = some rec8W) ∧
    ((branch env8W opts8W repoTxt [("o8", rec8W)]).output = .result
        { success := true, branchName := "nb", owner := "@t",
          files := getOwnerFiles env8W.getOwner repoTxt "@t" opts8W.isDefaultOwner,
          pushed := true, prUrl := none, prNumber := none, error := none } ∧
      branchExists (branch env8W opts8W repoTxt [("o8", rec8W)]).repo "nb" = true ∧
      (branch env8W opts8W repoTxt [("o8", rec8W)]).repo.current = repoTxt.current ∧
      ∃ rec2,
        loadOperationState (branch env8W opts8W repoTxt [("o8", rec8W)]).store rec8W.id =
          some rec2 ∧
        rec2.branches = rec8W.branches ++
          [{ name := "nb", owner := "@t", created := true, committed := true, pushed := true,
             prCreated := false,
             files := getOwnerFiles env8W.getOwner repoTxt "@t" opts8W.isDefaultOwner,
             error := some ("PR creation failed: " ++ "boom") }]) :=
  ⟨⟨rfl, rfl, rfl⟩,
    pr_failure_nonfatal env8W opts8W repoTxt [("o8", rec8W)] "@t" "nb" "m" "boom" rec8W rec8W
      [("a.txt", "old")] rfl rfl rfl rfl rfl rfl rfl rfl rfl rfl rfl rfl rfl
      (fun b hb => absurd hb (List.not_mem_nil b)) rfl rfl rfl⟩

/-! ## C4 (amended) — the owner universe with the duplicated default owner -/

/-- C4 amended: the owners resolved from changed files are deduplicated (each
appears at most once, in first-appearance order), but the configured default
owner is appended unconditionally when some changed file resolves to zero
owners — even when it is already among the resolved owners — so the default
owner can appear twice and be processed twice, while every other owner
appears in the processed universe at most once. -/
theorem ownerUniverse_amended (env : Env) (opts : MultiBranchOptions) (repo : GitRepo)
    (store : Storage) (base msg : String)
    (hb : opts.branch = some base) (hm : opts.message = some msg)
    (hig : opts.ignorePatterns = none) (hinc : opts.includePatterns = none)
    (hpr1 : ((opts.pr || opts.draftPr) && !opts.push) = false)
    (hpr2 : (opts.pr && opts.draftPr) = false)
    (hstaged : hasStagedChanges repo = false)
    (hchanged : (getChangedFiles repo).isEmpty = false)
    (huniv : (ownerUniverse env opts repo).isEmpty = false) :
    (multiBranch env opts repo store).codeowners = ownerUniverse env opts repo ∧
    (collectOwners env.getOwner (getChangedFiles repo)).1.Nodup ∧
    (∀ o : String, opts.defaultOwner ≠ some o →
      (multiBranch env opts repo store).codeowners.count o ≤ 1) := by
  have happ : ∀ l, applyFilters env opts l = l := by
    intro l
    unfold applyFilters
    rw [hig, hinc]
  have hmain : (multiBranch env opts repo store).codeowners = ownerUniverse env opts repo := by
    unfold multiBranch
    rw [hb, hm, hig, hinc]
    dsimp only
    rw [if_neg (by decide),
      if_neg (by rw [hpr1]; exact Bool.false_ne_true),
      if_neg (by rw [hpr2]; exact Bool.false_ne_true),
      if_neg (by rw [hstaged]; exact Bool.false_ne_true),
      if_neg (by rw [hchanged]; exact Bool.false_ne_true),
      if_neg (by rw [huniv]; exact Bool.false_ne_true)]
    rw [if_neg (by simp)]
    split
    · exact happ _
    · split
      · exact happ _
      · exact happ _
  refine ⟨hmain, collectOwners_nodup _ _, ?_⟩
  intro o ho
  rw [hmain]
  have hnodup := collectOwners_nodup env.getOwner (getChangedFiles repo)
  have hcount : (collectOwners env.getOwner (getChangedFiles repo)).1.count o ≤ 1 :=
    List.nodup_iff_count_le_one.mp hnodup o
  unfold ownerUniverse
  cases hd : opts.defaultOwner with
  | none =>
    dsimp only
    split
    · exact hcount
    · exact hcount
  | some d =>
    have hdo : ¬ (d = o) := fun h => ho (by rw [hd, h])
    dsimp only
    split
    · rw [List.count_append]
      have h0 : List.count o [d] = 0 := by simp [List.count_cons, hdo]
      rw [h0]
      simpa using hcount
    · exact hcount

/-- Witness for the amended C4 at the concrete duplicated-default scenario. -/
theorem ownerUniverse_amended_witness :
    ((getChangedFiles repoTwoFiles).isEmpty = false ∧
     (ownerUniverse envTwoFiles optsDefaultDup repoTwoFiles).isEmpty = false) ∧
    ((multiBranch envTwoFiles optsDefaultDup repoTwoFiles []).codeowners =
      ownerUniverse envTwoFiles optsDefaultDup repoTwoFiles ∧
     (collectOwners envTwoFiles.getOwner (getChangedFiles repoTwoFiles)).1.Nodup ∧
     (∀ o : String, optsDefaultDup.defaultOwner ≠ some o →
       ((multiBranch envTwoFiles optsDefaultDup repoTwoFiles []).codeowners.count o ≤ 1))) :=
  ⟨⟨rfl, rfl⟩, ownerUniverse_amended envTwoFiles optsDefaultDup repoTwoFiles [] "feature" "m"
    rfl rfl rfl rfl rfl rfl rfl rfl rfl⟩

def recC6 : OperationStateData :=
  { id := "r1", timestamp := 4, operation := "multi-branch", originalBranch := "main",
    currentState := .failed,
    branches := [{ name := "feature/a", owner := "@a", created := true, committed := true,
                   pushed := false, prCreated := false, files := ["f1"], error := none }],
    options := {} }

def repoC6 : GitRepo :=
  { branches := [("main", [("f1", "old")]), ("feature/a", [("f1", "new")])], current := "main",
    workTree := [("f1", "old")], staged := [] }

/-- Witness for C6 at a concrete input: one failed multi-branch record with a
created branch that still exists. -/
theorem recovery_behaviour_witness :
    (branchExists repoC6 recC6.originalBranch = true ∧
     (∀ b ∈ recC6.branches, b.created = true → b.name ≠ recC6.originalBranch)) ∧
    (∃ repo2 store2, performRecovery recC6 false repoC6 [("r1", recC6)] = .ok (repo2, store2) ∧
      (∀ b ∈ recC6.branches, b.created = true → branchExists repo2 b.name = false) ∧
      repo2.current = recC6.originalBranch ∧
      (∀ e ∈ store2, e.1 ≠ recC6.id)) :=
  ⟨⟨rfl, by decide⟩,
    (recovery_behaviour recC6 repoC6 [("r1", recC6)] {} rfl (by decide)).1⟩

end CodeownersGit
